import Mathlib

/-!
Verification development for the starknet-jsonrpc-codegen generator
(`src/main.rs`).  The Rust source is shallowly embedded: pure functions
become Lean functions, the stateful schema visitors thread their state
explicitly, and fallible code returns `Except String`.  The schema data
model (the `spec` module is not part of the provided sources) is modelled
from the specification's data-model section and from how `main.rs`
consumes it.
-/

set_option maxHeartbeats 1000000

mutual

/-- A JSON value, used to state properties of the wire-level behaviour of
the encode/decode implementations that the generator emits. -/
inductive Json where
  | null : Json
  | bool (b : Bool) : Json
  | num (n : Int) : Json
  | str (s : String) : Json
  | arr (elems : JsonList) : Json
  | obj (kvs : JsonKvs) : Json

/-- A list of JSON values (the elements of a JSON array). -/
inductive JsonList where
  | nil : JsonList
  | cons (head : Json) (tail : JsonList) : JsonList

/-- The key/value members of a JSON object, in document order. -/
inductive JsonKvs where
  | nil : JsonKvs
  | cons (key : String) (val : Json) (tail : JsonKvs) : JsonKvs

end

mutual

/-- Boolean equality on JSON values. -/
def Json.beq : Json → Json → Bool
  | .null, .null => true
  | .bool a, .bool b => a == b
  | .num a, .num b => a == b
  | .str a, .str b => a == b
  | .arr a, .arr b => JsonList.beq a b
  | .obj a, .obj b => JsonKvs.beq a b
  | _, _ => false

/-- Boolean equality on JSON arrays. -/
def JsonList.beq : JsonList → JsonList → Bool
  | .nil, .nil => true
  | .cons x xs, .cons y ys => Json.beq x y && JsonList.beq xs ys
  | _, _ => false

/-- Boolean equality on JSON object members. -/
def JsonKvs.beq : JsonKvs → JsonKvs → Bool
  | .nil, .nil => true
  | .cons k v t, .cons k' v' t' => k == k' && Json.beq v v' && JsonKvs.beq t t'
  | _, _ => false

end

mutual

theorem jsonBeq_iff : ∀ a b : Json, Json.beq a b = true ↔ a = b
  | .null, b => by cases b <;> simp [Json.beq]
  | .bool x, b => by cases b <;> simp [Json.beq]
  | .num x, b => by cases b <;> simp [Json.beq]
  | .str x, b => by cases b <;> simp [Json.beq]
  | .arr xs, b => by
      cases b <;> simp [Json.beq, jsonListBeq_iff xs]
  | .obj xs, b => by
      cases b <;> simp [Json.beq, jsonKvsBeq_iff xs]

theorem jsonListBeq_iff : ∀ a b : JsonList, JsonList.beq a b = true ↔ a = b
  | .nil, b => by cases b <;> simp [JsonList.beq]
  | .cons x xs, b => by
      cases b <;> simp [JsonList.beq, jsonBeq_iff x, jsonListBeq_iff xs]

theorem jsonKvsBeq_iff : ∀ a b : JsonKvs, JsonKvs.beq a b = true ↔ a = b
  | .nil, b => by cases b <;> simp [JsonKvs.beq]
  | .cons k v t, b => by
      cases b <;>
        simp [JsonKvs.beq, jsonBeq_iff v, jsonKvsBeq_iff t, and_assoc]

end

instance : DecidableEq Json := fun a b =>
  decidable_of_iff (Json.beq a b = true) (jsonBeq_iff a b)

instance : DecidableEq JsonList := fun a b =>
  decidable_of_iff (JsonList.beq a b = true) (jsonListBeq_iff a b)

instance : DecidableEq JsonKvs := fun a b =>
  decidable_of_iff (JsonKvs.beq a b = true) (jsonKvsBeq_iff a b)

/-- The elements of a JSON array as a Lean list (the shape obtained by
`Vec::<serde_json::Value>::deserialize` in the emitted code). -/
def JsonList.toList : JsonList → List Json
  | .nil => []
  | .cons x xs => x :: xs.toList

/-- The members of a JSON object as a Lean association list. -/
def JsonKvs.toList : JsonKvs → List (String × Json)
  | .nil => []
  | .cons k v t => (k, v) :: t.toList

/-- Modelled from the spec: common metadata carried by every schema node
(title, description, summary accessors used by `resolve_types` and
`get_schema_fields`); the `spec` module defining it is not in `src/`. -/
structure SchemaMeta where
  title : Option String := none
  description : Option String := none
  summary : Option String := none
deriving DecidableEq, Repr

mutual

/-- Modelled from the spec: the immutable schema tree — Reference, OneOf,
AllOf and the primitives Object, Array, String, Integer, Boolean — exactly
the shapes `main.rs` pattern-matches on.  `ref` carries the referenced
name and the reference node's own description (used when an `AllOf`
fragment is kept as a tagged sub-object). -/
inductive Schema where
  | ref (meta : SchemaMeta) (name : String) : Schema
  | oneOf (meta : SchemaMeta) (variants : SchemaList) : Schema
  | allOf (meta : SchemaMeta) (fragments : SchemaList) : Schema
  | objectPrim (meta : SchemaMeta) (properties : PropList)
      (required : Option (List String)) : Schema
  | arrayPrim (meta : SchemaMeta) (items : Schema) : Schema
  | stringPrim (meta : SchemaMeta) (enumValues : Option (List String)) : Schema
  | integerPrim (meta : SchemaMeta) : Schema
  | booleanPrim (meta : SchemaMeta) : Schema

/-- A list of schemas (`Vec<Schema>` in the Rust model), as a mutual
inductive so that structural recursion over the tree is available. -/
inductive SchemaList where
  | nil : SchemaList
  | cons (head : Schema) (tail : SchemaList) : SchemaList

/-- An ordered property map (`IndexMap<String, Schema>`): property name
paired with its schema, in insertion order. -/
inductive PropList where
  | nil : PropList
  | cons (name : String) (head : Schema) (tail : PropList) : PropList

end

/-- The meta record of a schema node. -/
def Schema.meta : Schema → SchemaMeta
  | .ref m _ => m
  | .oneOf m _ => m
  | .allOf m _ => m
  | .objectPrim m _ _ => m
  | .arrayPrim m _ => m
  | .stringPrim m _ => m
  | .integerPrim m => m
  | .booleanPrim m => m

/-- `entity.title()` accessor. -/
def Schema.title (s : Schema) : Option String := s.meta.title

/-- `entity.description()` accessor. -/
def Schema.description (s : Schema) : Option String := s.meta.description

/-- `entity.summary()` accessor. -/
def Schema.summary (s : Schema) : Option String := s.meta.summary

/-- Modelled from the spec: a named error definition is either a literal
`{code, message}` payload or a reference to another definition. -/
inductive ErrorType where
  | error (code : Int) (message : String) : ErrorType
  | reference (target : String) : ErrorType
deriving DecidableEq, Repr

/-- Modelled from the spec: one method parameter
`{name, description, required, schema}`. -/
structure Param where
  name : String
  description : Option String := none
  required : Bool := true
  schema : Schema

/-- Modelled from the spec: one method, with its ordered parameter list. -/
structure Method where
  name : String
  params : List Param

/-- Modelled from the spec: the components section — the name→schema map
and the name→error-definition map, both insertion-ordered (`IndexMap`). -/
structure Components where
  schemas : List (String × Schema)
  errors : List (String × ErrorType)

/-- Modelled from the spec: a parsed specification document. -/
structure Specification where
  components : Components
  methods : List Method

/-- `enum SerializerOverride` from `main.rs`. -/
inductive SerializerOverride where
  | serde (serializer : String) : SerializerOverride
  | serdeAs (serializer : String) : SerializerOverride
deriving DecidableEq, Repr

/-- `struct FixedField { name, value }` from `main.rs` (the `value` is the
Rust literal source text, e.g. a quoted string). -/
structure FixedField where
  name : String
  value : String
deriving DecidableEq, Repr

/-- `struct RustField` from `main.rs` (field `serde_faltten` keeps the
source's spelling). -/
structure RustField where
  description : Option String := none
  name : String
  optional : Bool := false
  fixed : Option FixedField := none
  arc_wrap : Bool := false
  type_name : String
  serde_rename : Option String := none
  serde_faltten : Bool := false
  serializer : Option SerializerOverride := none
deriving DecidableEq, Repr

/-- `struct RustFieldType` from `main.rs`. -/
structure RustFieldType where
  type_name : String
  serializer : Option SerializerOverride := none
deriving DecidableEq, Repr

/-- `struct RustVariant` from `main.rs`. -/
structure RustVariant where
  description : Option String := none
  name : String
  serde_name : Option String := none
  error_text : Option String := none
deriving DecidableEq, Repr

/-- `struct RustStruct` from `main.rs`. -/
structure RustStruct where
  serde_as_array : Bool
  extra_ref_type : Bool
  fields : List RustField
deriving DecidableEq, Repr

/-- `struct RustEnum` from `main.rs`. -/
structure RustEnum where
  thiserror : Bool
  variants : List RustVariant
deriving DecidableEq, Repr

/-- `struct RustWrapper` from `main.rs`. -/
structure RustWrapper where
  type_name : String
deriving DecidableEq, Repr

/-- `struct RustUnit` from `main.rs`. -/
structure RustUnit where
  serde_as_array : Bool
deriving DecidableEq, Repr

/-- `enum RustTypeKind` from `main.rs`. -/
inductive RustTypeKind where
  | struct_ (s : RustStruct) : RustTypeKind
  | enum_ (e : RustEnum) : RustTypeKind
  | wrapper (w : RustWrapper) : RustTypeKind
  | unit (u : RustUnit) : RustTypeKind
deriving DecidableEq, Repr

/-- `struct RustType` from `main.rs`. -/
structure RustType where
  title : Option String := none
  description : Option String := none
  name : String
  content : RustTypeKind
deriving DecidableEq, Repr

/-- `enum FlattenOption` from `main.rs`. -/
inductive FlattenOption where
  | all : FlattenOption
  | selected (flattenTypes : List String) : FlattenOption

/-- `struct RustTypeWithFixedFields` from `main.rs`. -/
structure RustTypeWithFixedFields where
  name : String
  fields : List FixedField

/-- `struct RustTypeWithArcWrappedFields` from `main.rs`. -/
structure RustTypeWithArcWrappedFields where
  name : String
  fields : List String

/-- `struct FixedFieldsOptions` from `main.rs`. -/
structure FixedFieldsOptions where
  fixed_field_types : List RustTypeWithFixedFields

/-- `struct ArcWrappingOptions` from `main.rs`. -/
structure ArcWrappingOptions where
  arc_wrapped_types : List RustTypeWithArcWrappedFields

/-- `struct TypeResolutionResult` from `main.rs`. -/
structure TypeResolutionResult where
  model_types : List RustType
  request_response_types : List RustType
  not_implemented : List String

/-- `FixedFieldsOptions::find_fixed_field` (`main.rs:192`): first table
entry whose type name matches, then the first of its fields matching the
field name. -/
def FixedFieldsOptions.find_fixed_field (o : FixedFieldsOptions)
    (type_name field_name : String) : Option FixedField :=
  o.fixed_field_types.findSome? fun item =>
    if item.name = type_name then
      item.fields.find? fun field => field.name = field_name
    else
      none

/-- `ArcWrappingOptions::in_field_wrapped` (`main.rs:207`). -/
def ArcWrappingOptions.in_field_wrapped (o : ArcWrappingOptions)
    (type_name field_name : String) : Bool :=
  o.arc_wrapped_types.any fun item =>
    if item.name = type_name then
      item.fields.any fun field => field = field_name
    else
      false

/-! ### Name and documentation transforms (`main.rs:1988`–`2155`) -/

/-- The loop body of `to_pascal_case` (`main.rs:2084`–`2100`): the state
is the index of the last underscore and the accumulated output; an
underscore is dropped (recording its index), and a kept character is
upper-cased exactly when it is the first character or immediately follows
the last underscore, lower-cased otherwise.  `Char.toUpper`/`Char.toLower`
coincide with Rust's `to_ascii_uppercase`/`to_ascii_lowercase`. -/
def pascalStep (st : Option Nat × List Char) (p : Nat × Char) :
    Option Nat × List Char :=
  if p.2 = '_' then (some p.1, st.2)
  else
    let uppercase := match st.1 with
      | some last_underscore => p.1 == last_underscore + 1
      | none => p.1 == 0
    (st.1, st.2 ++ [if uppercase then p.2.toUpper else p.2.toLower])

/-- `to_pascal_case` (`main.rs:2080`): fold the indexed loop body over the
characters of the name. -/
def to_pascal_case (name : String) : String :=
  ⟨(name.data.enum.foldl pascalStep (none, [])).2⟩

/-- Structural reformulation of `to_pascal_case`'s loop: the flag records
whether the next kept character starts a word (first character, or the
previous character was an underscore).  Proved equal to the indexed loop in
`to_pascal_case_eq_pascalAux`. -/
def pascalAux : Bool → List Char → List Char
  | _, [] => []
  | up, c :: rest =>
      if c = '_' then pascalAux true rest
      else (if up then c.toUpper else c.toLower) :: pascalAux false rest

/-- `camel_to_snake_case` (`main.rs:2105`): a character equal to its own
ascii-uppercasing gets a leading underscore and is lower-cased. -/
def camel_to_snake_case (name : String) : String :=
  ⟨name.data.foldl
    (fun result character =>
      if character.toUpper = character then result ++ ['_', character.toLower]
      else result ++ [character])
    []⟩

/-- `to_rust_field_name` (`main.rs:2046`): a name that is entirely capital
letters (regex `[A-Z]+` anchored at both ends) or contains an underscore is
ascii-lower-cased as is; otherwise it goes through camel-to-snake
conversion. -/
def to_rust_field_name (name : String) : String :=
  if (!name.data.isEmpty
        && name.data.all fun c => decide (65 ≤ c.toNat) && decide (c.toNat ≤ 90))
      || name.data.any (· == '_') then
    ⟨name.data.map Char.toLower⟩
  else
    camel_to_snake_case name

/-- `to_sentence_case` (`main.rs:2121`): tracks the index of the last
period and the previous character; a character is upper-cased when it is
the first one, or sits two places after the last period with a space in
between; every other character is lower-cased. -/
def to_sentence_case (name : String) : String :=
  let step := fun (st : Option Nat × Option Char × List Char) (p : Nat × Char) =>
    let last_period := if p.2 = '.' then some p.1 else st.1
    let uppercase := match last_period with
      | some lp => p.1 == lp + 2 && st.2.1 == some ' '
      | none => p.1 == 0
    (last_period, some p.2,
      st.2.2 ++ [if uppercase then p.2.toUpper else p.2.toLower])
  ⟨(name.data.enum.foldl step (none, none, [])).2.2⟩

/-- Word characters in the sense of the regex `\b` boundary
(`[A-Za-z0-9_]`). -/
def isWordChar (c : Char) : Bool := c.isAlpha || c.isDigit || c == '_'

/-- Character comparison, optionally ascii-case-insensitive (the `(?i)`
regex flag on ascii patterns). -/
def charEqCI (ci : Bool) (a b : Char) : Bool :=
  if ci then a.toLower == b.toLower else a == b

/-- Does `pat` match at the head of `s` (under optional
case-insensitivity)? -/
def matchesAt (ci : Bool) : List Char → List Char → Bool
  | [], _ => true
  | _ :: _, [] => false
  | p :: ps, c :: cs => charEqCI ci p c && matchesAt ci ps cs

/-- Is the position before the scan head a `\b` boundary, given the
previous character (none at the start of the string)?  All replaced
patterns start and end with word characters, so the boundary holds exactly
when the adjacent character is not a word character. -/
def boundaryOk (prev : Option Char) : Bool :=
  match prev with
  | none => true
  | some p => !isWordChar p

/-- Is the position after a candidate match a `\b` boundary? -/
def boundaryAfterOk (rest : List Char) : Bool :=
  match rest with
  | [] => true
  | c :: _ => !isWordChar c

/-- Leftmost, non-overlapping whole-word replacement: the scan of
`Regex::replace_all` for the literal word patterns used by
`to_starknet_rs_doc` (`main.rs:2060`). -/
def replaceWordAux (ci : Bool) (pat target : List Char) :
    Nat → Option Char → List Char → List Char
  | 0, _, l => l
  | _, _, [] => []
  | fuel + 1, prev, c :: rest =>
    if 0 < pat.length ∧ boundaryOk prev = true
        ∧ matchesAt ci pat (c :: rest) = true
        ∧ boundaryAfterOk (List.drop pat.length (c :: rest)) = true then
      target ++ replaceWordAux ci pat target fuel
        ((List.take pat.length (c :: rest)).getLast?)
        (List.drop pat.length (c :: rest))
    else
      c :: replaceWordAux ci pat target fuel (some c) rest

/-- Whole-word replacement on strings.  The scan consumes at least one
character per step, so `s.data.length` units of fuel always suffice;
structural recursion on the fuel keeps the scan kernel-computable. -/
def replaceWord (ci : Bool) (pat target s : String) : String :=
  ⟨replaceWordAux ci pat.data target.data s.data.length none s.data⟩

/-- `to_starknet_rs_doc` (`main.rs:2057`): sentence-case the text, restore
the canonical casing of a fixed set of proper nouns via whole-word
substitution, and optionally force a trailing period. -/
def to_starknet_rs_doc (doc : String) (force_period : Bool) : String :=
  let doc := to_sentence_case doc
  let doc :=
    [(true, "ethereum", "Ethereum"), (true, "starknet", "Starknet"),
     (true, "starknet.io", "starknet.io"), (false, "l1", "L1"),
     (false, "l2", "L2"), (false, "unix", "Unix")].foldl
      (fun d (pt : Bool × String × String) => replaceWord pt.1 pt.2.1 pt.2.2 d)
      doc
  if force_period && !(doc.data.getLast? == some '.') then doc ++ "."
  else doc

/-- Rust's `str::replace` for a literal pattern: leftmost,
non-overlapping replacement of every occurrence.  The `Nat` argument is
recursion fuel (one unit per consumed character suffices), keeping the
definition kernel-computable. -/
def replaceAllCharsAux (pat target : List Char) : Nat → List Char → List Char
  | 0, l => l
  | _, [] => []
  | fuel + 1, c :: rest =>
      if pat ≠ [] ∧ pat.isPrefixOf (c :: rest) then
        target ++ replaceAllCharsAux pat target fuel
          (List.drop pat.length (c :: rest))
      else
        c :: replaceAllCharsAux pat target fuel rest

/-- Rust's `str::replace` on strings. -/
def replaceAllChars (pat target s : String) : String :=
  ⟨replaceAllCharsAux pat.data target.data s.data.length s.data⟩

/-- `to_starknet_rs_name` (`main.rs:2019`): pascal-case the name, expand
the `Txn` abbreviation everywhere, then apply the hard-coded rename
table. -/
def to_starknet_rs_name (name : String) : String :=
  let name := replaceAllChars "Txn" "Transaction" (to_pascal_case name)
  match name with
  | "CommonTransactionProperties" => "TransactionMeta"
  | "CommonReceiptProperties" => "TransactionReceiptMeta"
  | "InvokeTransactionReceiptProperties" => "InvokeTransactionReceiptData"
  | "PendingCommonReceiptProperties" => "PendingTransactionReceiptMeta"
  | "SierraContractClass" => "FlattenedSierraClass"
  | "LegacyContractClass" => "CompressedLegacyContractClass"
  | "DeprecatedContractClass" => "CompressedLegacyContractClass"
  | "ContractAbiEntry" => "LegacyContractAbiEntry"
  | "FunctionAbiEntry" => "LegacyFunctionAbiEntry"
  | "EventAbiEntry" => "LegacyEventAbiEntry"
  | "StructAbiEntry" => "LegacyStructAbiEntry"
  | "FunctionAbiType" => "LegacyFunctionAbiType"
  | "EventAbiType" => "LegacyEventAbiType"
  | "StructAbiType" => "LegacyStructAbiType"
  | "StructMember" => "LegacyStructMember"
  | "TypedParameter" => "LegacyTypedParameter"
  | "DeprecatedEntryPointsByType" => "LegacyEntryPointsByType"
  | "DeprecatedCairoEntryPoint" => "LegacyContractEntryPoint"
  | _ => name

/-- Rust's `str::trim_start_matches`: repeatedly strip the prefix while it
matches.  The `Nat` argument is recursion fuel (one unit per stripped
occurrence suffices), keeping the definition kernel-computable. -/
def trimStartMatchesAux (pat : List Char) : Nat → List Char → List Char
  | 0, l => l
  | fuel + 1, l =>
      if pat ≠ [] ∧ pat.isPrefixOf l then
        trimStartMatchesAux pat fuel (l.drop pat.length)
      else
        l

/-- `method.name.trim_start_matches("starknet_")` as used at
`main.rs:1566`. -/
def trimStartMatches (s pat : String) : String :=
  ⟨trimStartMatchesAux pat.data s.data.length s.data⟩

/-- Rust's `str::to_lowercase` as used on reference names
(`main.rs:1799`); the names are ascii so this agrees with the Unicode
lowering. -/
def toLowercase (s : String) : String := ⟨s.data.map Char.toLower⟩

/-! ### Field type mapping (`main.rs:1875`–`1986`) -/

/-- Rust's `str::contains` for a literal pattern, on character lists. -/
def containsSub (hay needle : List Char) : Bool :=
  needle.isPrefixOf hay ||
    match hay with
    | [] => false
    | _ :: t => containsSub t needle

/-- `get_field_type_override` (`main.rs:1945`): the hard-coded per-name
type-and-codec override table. -/
def get_field_type_override (type_name : String) : Option RustFieldType :=
  match type_name with
  | "ADDRESS" | "STORAGE_KEY" | "TXN_HASH" | "FELT" | "BLOCK_HASH"
  | "CHAIN_ID" | "PROTOCOL_VERSION" =>
      some { type_name := "FieldElement"
             serializer := some (.serdeAs "UfeHex") }
  | "BLOCK_NUMBER" => some { type_name := "u64", serializer := none }
  | "NUM_AS_HEX" =>
      some { type_name := "u64", serializer := some (.serdeAs "NumAsHex") }
  | "ETH_ADDRESS" => some { type_name := "EthAddress", serializer := none }
  | "SIGNATURE" =>
      some { type_name := "Vec<FieldElement>"
             serializer := some (.serdeAs "Vec<UfeHex>") }
  | "CONTRACT_ABI" =>
      some { type_name := "Vec<LegacyContractAbiEntry>", serializer := none }
  | "CONTRACT_ENTRY_POINT_LIST" =>
      some { type_name := "Vec<ContractEntryPoint>", serializer := none }
  | "LEGACY_CONTRACT_ENTRY_POINT_LIST" =>
      some { type_name := "Vec<LegacyContractEntryPoint>", serializer := none }
  | "TXN_TYPE" => some { type_name := "String", serializer := none }
  | _ => none

/-- Key lookup in the insertion-ordered name→schema map
(`specs.components.schemas.get(name)`). -/
def schemasGet (specs : Specification) (name : String) : Option Schema :=
  (specs.components.schemas.find? fun kv => kv.1 = name).map fun kv => kv.2

/-- `get_rust_type_for_field` (`main.rs:1875`): map a schema in
field/parameter position to a native type plus optional codec override.
References check existence and consult the override table; arrays recurse
on the item and wrap a `SerdeAs` codec in `Vec<…>` (a `Serde` codec hits a
`todo!`, modelled as an error); anonymous composites are errors; strings
whose description mentions base64 become byte blobs. -/
def get_rust_type_for_field (schema : Schema) (specs : Specification) :
    Except String RustFieldType :=
  match schema with
  | .ref _ name =>
      if (schemasGet specs name).isNone then
        .error ("Ref target type not found: " ++ name)
      else
        .ok ((get_field_type_override name).getD
          { type_name := to_starknet_rs_name name, serializer := none })
  | .oneOf _ _ =>
      .error "Anonymous oneOf types should not be used for properties"
  | .allOf _ _ =>
      .error "Anonymous allOf types should not be used for properties"
  | .arrayPrim _ items => do
      let item_type ← get_rust_type_for_field items specs
      let serializer ← match item_type.serializer with
        | some (.serde _) =>
            .error "Array wrapper for serde-with not implemented"
        | some (.serdeAs serializer) =>
            .ok (some (.serdeAs ("Vec<" ++ serializer ++ ">")))
        | none => .ok none
      .ok { type_name := "Vec<" ++ item_type.type_name ++ ">", serializer }
  | .booleanPrim _ => .ok { type_name := "bool", serializer := none }
  | .integerPrim _ => .ok { type_name := "u64", serializer := none }
  | .objectPrim _ _ _ =>
      .error "Anonymous object types should not be used for properties"
  | .stringPrim meta _ =>
      match meta.description with
      | some desc =>
          if containsSub desc.data "base64".data then
            .ok { type_name := "Vec<u8>", serializer := some (.serde "base64") }
          else
            .ok { type_name := "String", serializer := none }
      | none => .ok { type_name := "String", serializer := none }

/-! ### Flatten-only analysis (`main.rs:1651`–`1764`) -/

/-- The `should_flatten` test on an `AllOf` fragment reference
(`main.rs:1708`). -/
def shouldFlatten (flatten_option : FlattenOption) (name : String) : Bool :=
  match flatten_option with
  | .all => true
  | .selected flatten_types => flatten_types.contains name

mutual

/-- `visit_schema_for_flatten_only` (`main.rs:1681`): walks one schema,
threading the pair (flatten set, non-flatten set) that the Rust code
mutates through `&mut HashSet`. -/
def visit_schema_for_flatten_only (schema : Schema)
    (flatten_option : FlattenOption) (st : Finset String × Finset String) :
    Finset String × Finset String :=
  match schema with
  | .oneOf _ variants => visitOneOfVariants variants flatten_option st
  | .allOf _ fragments => visitAllOfFragments fragments flatten_option st
  | .objectPrim _ properties _ => visitObjectProps properties flatten_option st
  | .arrayPrim _ (.ref _ name) => (st.1, insert name st.2)
  | .arrayPrim _ items => visit_schema_for_flatten_only items flatten_option st
  | _ => st

/-- The `OneOf` loop of the visitor: a `Ref` variant goes straight into
the non-flatten set; any other variant is visited recursively. -/
def visitOneOfVariants (variants : SchemaList) (flatten_option : FlattenOption)
    (st : Finset String × Finset String) : Finset String × Finset String :=
  match variants with
  | .nil => st
  | .cons (.ref _ name) rest =>
      visitOneOfVariants rest flatten_option (st.1, insert name st.2)
  | .cons variant rest =>
      visitOneOfVariants rest flatten_option
        (visit_schema_for_flatten_only variant flatten_option st)

/-- The `AllOf` loop of the visitor: a `Ref` fragment selected by the
flatten policy goes into the flatten set; a non-selected `Ref` goes into
the non-flatten set and is then visited (a no-op for references); other
fragments are visited recursively. -/
def visitAllOfFragments (fragments : SchemaList)
    (flatten_option : FlattenOption) (st : Finset String × Finset String) :
    Finset String × Finset String :=
  match fragments with
  | .nil => st
  | .cons (.ref m name) rest =>
      visitAllOfFragments rest flatten_option
        (if shouldFlatten flatten_option name then
          (insert name st.1, st.2)
        else
          visit_schema_for_flatten_only (.ref m name) flatten_option
            (st.1, insert name st.2))
  | .cons fragment rest =>
      visitAllOfFragments rest flatten_option
        (visit_schema_for_flatten_only fragment flatten_option st)

/-- The `Object` property loop of the visitor: a `Ref` property goes into
the non-flatten set; other property schemas are visited recursively. -/
def visitObjectProps (properties : PropList) (flatten_option : FlattenOption)
    (st : Finset String × Finset String) : Finset String × Finset String :=
  match properties with
  | .nil => st
  | .cons _ (.ref _ name) rest =>
      visitObjectProps rest flatten_option (st.1, insert name st.2)
  | .cons _ prop_type rest =>
      visitObjectProps rest flatten_option
        (visit_schema_for_flatten_only prop_type flatten_option st)

end

/-- The fixed exclusion list `HARD_CODED_NON_FLATTEN_SCHEMAS`
(`main.rs:1653`). -/
def HARD_CODED_NON_FLATTEN_SCHEMAS : List String :=
  ["FUNCTION_CALL", "PENDING_STATE_UPDATE"]

/-- `get_flatten_only_schemas` (`main.rs:1651`): visit every schema in the
document, then keep the flatten-set names that are neither in the
non-flatten set nor in the fixed exclusion list.  The Rust function
returns a `Vec` in unspecified `HashSet` iteration order that is only ever
used through membership tests, so the result is modelled as the set
itself. -/
def get_flatten_only_schemas (specs : Specification)
    (flatten_option : FlattenOption) : Finset String :=
  let st := specs.components.schemas.foldl
    (fun st kv => visit_schema_for_flatten_only kv.2 flatten_option st)
    (∅, ∅)
  st.1.filter fun item =>
    ¬(item ∈ st.2 ∨ item ∈ HARD_CODED_NON_FLATTEN_SCHEMAS)

mutual

/-- Following the specification's words (§4.2): the pair of name sets
collected from one schema — first the references that occur as
policy-selected `AllOf` fragments ("flatten candidates"), second the
references that occur in any other context (an `Object` property, an
`Array`'s items, a `OneOf` variant, or a non-selected `AllOf`
fragment). -/
def refContexts (flatten_option : FlattenOption) (schema : Schema) :
    Finset String × Finset String :=
  match schema with
  | .oneOf _ variants => refContextsOneOf flatten_option variants
  | .allOf _ fragments => refContextsAllOf flatten_option fragments
  | .objectPrim _ properties _ => refContextsProps flatten_option properties
  | .arrayPrim _ (.ref _ name) => (∅, {name})
  | .arrayPrim _ items => refContexts flatten_option items
  | _ => (∅, ∅)

/-- Reference contexts contributed by the variants of a `OneOf`. -/
def refContextsOneOf (flatten_option : FlattenOption) (variants : SchemaList) :
    Finset String × Finset String :=
  match variants with
  | .nil => (∅, ∅)
  | .cons (.ref _ name) rest =>
      let tail := refContextsOneOf flatten_option rest
      (tail.1, {name} ∪ tail.2)
  | .cons variant rest =>
      let head := refContexts flatten_option variant
      let tail := refContextsOneOf flatten_option rest
      (head.1 ∪ tail.1, head.2 ∪ tail.2)

/-- Reference contexts contributed by the fragments of an `AllOf`. -/
def refContextsAllOf (flatten_option : FlattenOption)
    (fragments : SchemaList) : Finset String × Finset String :=
  match fragments with
  | .nil => (∅, ∅)
  | .cons (.ref _ name) rest =>
      let tail := refContextsAllOf flatten_option rest
      if shouldFlatten flatten_option name then
        ({name} ∪ tail.1, tail.2)
      else
        (tail.1, {name} ∪ tail.2)
  | .cons fragment rest =>
      let head := refContexts flatten_option fragment
      let tail := refContextsAllOf flatten_option rest
      (head.1 ∪ tail.1, head.2 ∪ tail.2)

/-- Reference contexts contributed by the properties of an `Object`. -/
def refContextsProps (flatten_option : FlattenOption) (properties : PropList) :
    Finset String × Finset String :=
  match properties with
  | .nil => (∅, ∅)
  | .cons _ (.ref _ name) rest =>
      let tail := refContextsProps flatten_option rest
      (tail.1, {name} ∪ tail.2)
  | .cons _ prop_type rest =>
      let head := refContexts flatten_option prop_type
      let tail := refContextsProps flatten_option rest
      (head.1 ∪ tail.1, head.2 ∪ tail.2)

end

/-- Following the specification's words (§4.2): the document-wide
flatten-candidate set — every name that appears as a policy-selected
`AllOf` fragment reference anywhere in the components map. -/
def docFlattenSet (specs : Specification) (flatten_option : FlattenOption) :
    Finset String :=
  specs.components.schemas.foldl
    (fun acc kv => acc ∪ (refContexts flatten_option kv.2).1) ∅

/-- Following the specification's words (§4.2): the document-wide
non-flatten set — every name referenced in any context other than a
policy-selected `AllOf` fragment. -/
def docNonFlattenSet (specs : Specification)
    (flatten_option : FlattenOption) : Finset String :=
  specs.components.schemas.foldl
    (fun acc kv => acc ∪ (refContexts flatten_option kv.2).2) ∅

/-! ### Field extraction and classification (`main.rs:1597`–`1648`,
`1766`–`1873`) -/

/-- `SerializerOverride::to_optional` (`main.rs:786`): a `SerdeAs` codec is
wrapped in `Option<…>`; the transformation of a `Serde` codec is a `todo!`
in the source, modelled as an error. -/
def SerializerOverride.to_optional :
    SerializerOverride → Except String SerializerOverride
  | .serde _ =>
      .error "Optional transformation of serde-with not implemented"
  | .serdeAs serde_as => .ok (.serdeAs ("Option<" ++ serde_as ++ ">"))

/-- The `Object` branch of `get_schema_fields` (`main.rs:1817`): each
property becomes a field; documentation prefers description, then title,
then summary; a property not listed in `required` is optional, wrapping
its type in `Option<…>` and its codec through `to_optional`; the wire name
is recorded as a rename when the rustified field name differs. -/
def objectPropsFields (specs : Specification)
    (required : Option (List String)) :
    PropList → Except String (List RustField)
  | .nil => .ok []
  | .cons name prop_value rest => do
      let doc_string := match prop_value.description with
        | some text => some text
        | none =>
            match prop_value.title with
            | some text => some text
            | none => prop_value.summary
      let field_type ← get_rust_type_for_field prop_value specs
      let field_name := to_rust_field_name name
      let rename := if name = field_name then none else some name
      let field_optional := match required with
        | some required => !required.contains name
        | none => false
      let type_name := if field_optional then
          "Option<" ++ field_type.type_name ++ ">"
        else
          field_type.type_name
      let serializer ← if field_optional then
          match field_type.serializer with
          | some s => Except.map some s.to_optional
          | none => .ok none
        else
          .ok field_type.serializer
      let restFields ← objectPropsFields specs required rest
      .ok ({ description := doc_string.map (to_starknet_rs_doc · false)
             name := field_name
             optional := field_optional
             fixed := none
             arc_wrap := false
             type_name
             serde_rename := rename
             serde_faltten := false
             serializer } :: restFields)

mutual

/-- `get_schema_fields` (`main.rs:1766`): extracts the field list of a
schema.  A reference redirects to its target (bounded by `fuel`, since the
Rust recursion diverges on cyclic references); an `AllOf` walks its
fragments; an `Object` maps its properties; anything else is an error. -/
def get_schema_fields : Nat → Schema → Specification → FlattenOption →
    Except String (List RustField)
  | 0, _, _, _ => .error "schema recursion limit reached"
  | fuel + 1, schema, specs, flatten_option =>
    match schema with
    | .ref _ name =>
        match schemasGet specs name with
        | none => .error ("Ref target type not found: " ++ name)
        | some ref_type => get_schema_fields fuel ref_type specs flatten_option
    | .allOf _ fragments => allOfFields fuel fragments specs flatten_option
    | .objectPrim _ properties required =>
        objectPropsFields specs required properties
    | _ => .error "Unexpected schema type when getting object fields"

/-- The `AllOf` loop of `get_schema_fields` (`main.rs:1783`): a fragment
reference selected by the flatten policy is inlined (its target's fields
are appended at this position); a non-selected reference becomes a single
`serde(flatten)` tagged sub-object field named after the lower-cased
reference; a non-reference fragment is always inlined. -/
def allOfFields : Nat → SchemaList → Specification → FlattenOption →
    Except String (List RustField)
  | 0, _, _, _ => .error "schema recursion limit reached"
  | _ + 1, .nil, _, _ => .ok []
  | fuel + 1, .cons (.ref m name) rest, specs, flatten_option =>
      if shouldFlatten flatten_option name then do
        let fields ← get_schema_fields fuel (.ref m name) specs flatten_option
        let restFields ← allOfFields fuel rest specs flatten_option
        .ok (fields ++ restFields)
      else do
        let restFields ← allOfFields fuel rest specs flatten_option
        .ok ({ description := m.description
               name := toLowercase name
               optional := false
               fixed := none
               arc_wrap := false
               type_name := to_starknet_rs_name name
               serde_rename := none
               serde_faltten := true
               serializer := none } :: restFields)
  | fuel + 1, .cons item rest, specs, flatten_option => do
      let fields ← get_schema_fields fuel item specs flatten_option
      let restFields ← allOfFields fuel rest specs flatten_option
      .ok (fields ++ restFields)

end

/-- `schema_to_rust_type_kind` (`main.rs:1597`): classify a top-level
schema.  A reference resolves one hop and extracts fields from the target;
`OneOf` is the unimplemented case, returning `none`; `AllOf` and `Object`
become structs; an enumerated `String` becomes a string-backed enum; a
non-enum `String` or any other shape is an error. -/
def schema_to_rust_type_kind (fuel : Nat) (specs : Specification)
    (entity : Schema) (flatten_option : FlattenOption) :
    Except String (Option RustTypeKind) :=
  match entity with
  | .ref _ name =>
      match schemasGet specs name with
      | none => .error ""
      | some redirected_schema => do
          let fields ← get_schema_fields fuel redirected_schema specs
            flatten_option
          .ok (some (.struct_ { serde_as_array := false
                                extra_ref_type := false
                                fields }))
  | .oneOf _ _ => .ok none
  | .allOf _ _ => do
      let fields ← get_schema_fields fuel entity specs flatten_option
      .ok (some (.struct_ { serde_as_array := false
                            extra_ref_type := false
                            fields }))
  | .objectPrim _ _ _ => do
      let fields ← get_schema_fields fuel entity specs flatten_option
      .ok (some (.struct_ { serde_as_array := false
                            extra_ref_type := false
                            fields }))
  | .stringPrim _ (some variants) =>
      .ok (some (.enum_ { thiserror := false
                          variants := variants.map fun item =>
                            { description := none
                              name := to_starknet_rs_name item
                              serde_name := some item
                              error_text := none } }))
  | .stringPrim _ none =>
      .error "Unexpected non-enum string type when generating struct/enum"
  | _ => .error "Unexpected schema type when generating struct/enum"

/-! ### Type resolution (`main.rs:1456`–`1595`) -/

/-- The model-type loop of `resolve_types` (`main.rs:1469`–`1515`): each
named schema is skipped when explicitly ignored, when a manual field-type
override exists, or when it is flatten-only; a schema classified `none`
(OneOf) is recorded as not implemented and the loop continues; otherwise
the fixed-field and shared-ownership override tables are applied to struct
fields and the type is emitted. -/
def resolveModelTypes (fuel : Nat) (specs : Specification)
    (flatten_option : FlattenOption) (ignore_types : List String)
    (fixed_fields : FixedFieldsOptions) (arc_wrapping : ArcWrappingOptions)
    (flatten_only_types : Finset String) :
    List (String × Schema) → Except String (List RustType × List String)
  | [] => .ok ([], [])
  | (name, entity) :: rest => do
      let recurse := resolveModelTypes fuel specs flatten_option ignore_types
        fixed_fields arc_wrapping flatten_only_types rest
      if ignore_types.contains name then
        recurse
      else if (get_field_type_override name).isSome then
        recurse
      else if name ∈ flatten_only_types then
        recurse
      else
        let rusty_name := to_starknet_rs_name name
        let title := entity.title
        let description := match entity.description with
          | some d => some d
          | none => entity.summary
        match ← schema_to_rust_type_kind fuel specs entity flatten_option with
        | none => do
            let (types, not_impl) ← recurse
            .ok (types, name :: not_impl)
        | some content => do
            let content := match content with
              | .struct_ inner =>
                  RustTypeKind.struct_ { inner with
                    fields := inner.fields.map fun field =>
                      { field with
                        fixed := fixed_fields.find_fixed_field rusty_name
                          field.name
                        arc_wrap := arc_wrapping.in_field_wrapped rusty_name
                          field.name } }
              | other => other
            let (types, not_impl) ← recurse
            .ok ({ title := title.map (to_starknet_rs_doc · true)
                   description := description.map (to_starknet_rs_doc · true)
                   name := rusty_name
                   content } :: types, not_impl)

/-- The variants of the synthetic `StarknetError` enum (`main.rs:1523`):
one variant per named error definition, carrying the literal message text;
an indirected error definition is a `todo!` in the source, modelled as an
error. -/
def starknetErrorVariants :
    List (String × ErrorType) → Except String (List RustVariant)
  | [] => .ok []
  | (name, .error _ message) :: rest => do
      let restVariants ← starknetErrorVariants rest
      .ok ({ description := some message
             name := to_starknet_rs_name name
             serde_name := none
             error_text := some message } :: restVariants)
  | (_, .reference _) :: _ => .error "Error redirection not implemented"

/-- The synthetic `StarknetError` type pushed by `resolve_types`
(`main.rs:1517`). -/
def starknetErrorType (specs : Specification) : Except String RustType := do
  let variants ← starknetErrorVariants specs.components.errors
  .ok { title := some "JSON-RPC error codes"
        description := none
        name := "StarknetError"
        content := .enum_ { thiserror := true, variants } }

/-- The request fields of one method (`main.rs:1544`–`1558`): one field
per parameter, in declaration order, optional exactly when the parameter
is not required, never fixed and never shared-ownership wrapped. -/
def buildRequestFields (specs : Specification) :
    List Param → Except String (List RustField)
  | [] => .ok []
  | param :: rest => do
      let field_type ← get_rust_type_for_field param.schema specs
      let restFields ← buildRequestFields specs rest
      .ok ({ description := param.description
             name := param.name
             optional := !param.required
             fixed := none
             arc_wrap := false
             type_name := field_type.type_name
             serde_rename := none
             serde_faltten := false
             serializer := field_type.serializer } :: restFields)

/-- The request type of one method (`main.rs:1560`–`1580`): an
array-encoded `Unit` when the method has no parameters, otherwise an
array-encoded struct with a borrowed/view (`extra_ref_type`)
counterpart. -/
def buildRequestType (specs : Specification) (method : Method) :
    Except String RustType := do
  let request_fields ← buildRequestFields specs method.params
  .ok { title := some ("Request for method " ++ method.name)
        description := none
        name := to_starknet_rs_name
          (camel_to_snake_case (trimStartMatches method.name "starknet_"))
          ++ "Request"
        content := if request_fields.isEmpty then
            RustTypeKind.unit { serde_as_array := true }
          else
            RustTypeKind.struct_ { serde_as_array := true
                                   extra_ref_type := true
                                   fields := request_fields } }

/-- Lexicographic comparison of character lists by code point; on the
ascii names being sorted this is exactly Rust's `Ord` for `String`
(lexicographic on UTF-8 bytes, which coincides with code-point order). -/
def strLeChars : List Char → List Char → Bool
  | [], _ => true
  | _ :: _, [] => false
  | a :: as, b :: bs =>
      if a.toNat < b.toNat then true
      else if b.toNat < a.toNat then false
      else strLeChars as bs

/-- The string order used to sort types by name (`main.rs:1585`–`1588`). -/
def strLe (a b : String) : Bool := strLeChars a.data b.data

/-- The by-name order on IR types. -/
def byNameLe (a b : RustType) : Prop := strLe a.name b.name = true

/-- The order on plain names. -/
def strLeProp (a b : String) : Prop := strLe a b = true

instance : DecidableRel byNameLe := fun a b =>
  inferInstanceAs (Decidable (strLe a.name b.name = true))

instance : DecidableRel strLeProp := fun a b =>
  inferInstanceAs (Decidable (strLe a b = true))

/-- `resolve_types` (`main.rs:1456`): compute the flatten-only set, build
the model types and the not-implemented list, append the synthetic error
enum, synthesize one request type per method, and sort the three lists by
name (`main.rs:1585`–`1588`; Rust's stable `sort_by_key`/`sort` is
modelled by a stable, structurally recursive insertion sort).  `fuel`
bounds the reference-following recursion, on which the Rust code can
diverge. -/
def resolve_types (fuel : Nat) (specs : Specification)
    (flatten_option : FlattenOption) (ignore_types : List String)
    (fixed_fields : FixedFieldsOptions) (arc_wrapping : ArcWrappingOptions) :
    Except String TypeResolutionResult := do
  let flatten_only_types := get_flatten_only_schemas specs flatten_option
  let (types, not_implemented_types) ← resolveModelTypes fuel specs
    flatten_option ignore_types fixed_fields arc_wrapping flatten_only_types
    specs.components.schemas
  let err_type ← starknetErrorType specs
  let types := types ++ [err_type]
  let req_types ← specs.methods.mapM (buildRequestType specs)
  .ok { model_types := List.insertionSort byNameLe types
        request_response_types := List.insertionSort byNameLe req_types
        not_implemented :=
          List.insertionSort strLeProp not_implemented_types }

/-! ### Document merge (`main.rs:1344`–`1362`) -/

/-- The error-map merge of `main`: each write-spec error definition is
inserted only when its name is vacant in the accumulated map (`IndexMap`
vacant-entry insertion appends at the end). -/
def mergeErrors (acc : List (String × ErrorType)) :
    List (String × ErrorType) → List (String × ErrorType)
  | [] => acc
  | (key, value) :: rest =>
      mergeErrors
        (if (acc.lookup key).isSome then acc else acc ++ [(key, value)]) rest

/-- The document merge in `main` (`main.rs:1347`–`1362`): write-spec
methods are appended after the core methods; write-spec error definitions
are merged first-wins into the core error map; schemas are taken from the
core document (the write spec provides no additional models). -/
def mergeSpecs (specs write_specs : Specification) : Specification :=
  { components := { schemas := specs.components.schemas
                    errors := mergeErrors specs.components.errors
                      write_specs.components.errors }
    methods := specs.methods ++ write_specs.methods }

/-! ### Semantics of the emitted encode/decode implementations
(`main.rs:267`–`314`, `410`–`460`, `462`–`541`, `543`–`621`)

The renderer emits Rust source text; the behaviour of that text is
modelled here.  A `FieldDesc` abstracts one struct field at the wire
level: its (wire) name, whether it is optional, the JSON value of its
fixed literal if any, and the predicate `ok` telling which JSON values
decode as the field's Rust type (the emitted code decodes each element
through a transparent single-field shadow struct, so a successfully
decoded value is represented by the JSON value itself). -/

/-- Wire-level abstraction of one emitted struct field. -/
structure FieldDesc where
  name : String
  optional : Bool := false
  fixed : Option Json := none
  ok : Json → Bool

/-- The field list that appears in the rendered struct definition
(`main.rs:287`, `306`): exactly the fields without a fixed value. -/
def RustStruct.defFields (s : RustStruct) : List RustField :=
  s.fields.filter fun field => field.fixed.isNone

/-- The tagged-object `Serialize` impl (`main.rs:410`–`460`): the shadow
`Tagged` record carries every field in order; a fixed field is given its
literal value, any other field the struct's own value. -/
def emittedTaggedSerialize (flds : List (FieldDesc × Json)) :
    List (String × Json) :=
  flds.map fun p => (p.1.name, p.1.fixed.getD p.2)

/-- The pop loop of the positional-array `Deserialize` impl
(`main.rs:500`–`510`), already viewed from the tail: the first argument
is the field list in reverse order and the second the JSON array
elements in reverse order.  Each step pops one element (an exhausted vector is the
"invalid sequence length" error) and decodes it through the field's
shadow struct ("failed to parse element" on mismatch); leftover leading
elements are never examined.  Assignments are rebuilt in forward field
order. -/
def popPath : List FieldDesc → List Json →
    Except String (List (String × Option Json))
  | [], _ => .ok []
  | _ :: _, [] => .error "invalid sequence length"
  | f :: fs, e :: es =>
      if f.ok e then do
        let rest ← popPath fs es
        .ok (rest ++ [(f.name, some e)])
      else
        .error "failed to parse element"

/-- The `AsObject` fallback of the positional-array `Deserialize` impl
(`main.rs:466`–`476`, `525`–`533`): every field is read from the object by
name; a missing non-optional field or a value the field cannot decode
fails the fallback. -/
def asObjectParse (fields : List FieldDesc) (kvs : List (String × Json)) :
    Option (List (String × Option Json)) :=
  match fields with
  | [] => some []
  | f :: rest =>
      match kvs.lookup f.name with
      | some v =>
          if f.ok v then
            (asObjectParse rest kvs).map fun r => (f.name, some v) :: r
          else
            none
      | none =>
          if f.optional then
            (asObjectParse rest kvs).map fun r => (f.name, none) :: r
          else
            none

/-- The positional-array `Deserialize` impl
(`render_impl_array_deserialize_stdout`, `main.rs:462`–`541`): an array
payload goes through the reverse pop loop; an object payload that parses
as `AsObject` is accepted; anything else is the "invalid sequence
length" error. -/
def emittedArrayDeserialize (fields : List FieldDesc) (payload : Json) :
    Except String (List (String × Option Json)) :=
  match payload with
  | .arr elems => popPath fields.reverse elems.toList.reverse
  | .obj kvs =>
      match asObjectParse fields kvs.toList with
      | some object => .ok object
      | none => .error "invalid sequence length"
  | _ => .error "invalid sequence length"

/-- The shadow `Tagged` record parse of the tagged-object `Deserialize`
impl (`main.rs:555`–`585`): each field is read from the object by name; a
fixed field is read at type `Option<…>`, so its absence is accepted; a
missing non-optional, non-fixed field or a value the field cannot decode
is a decode error.  Returns the per-field decoded values, aligned with
the field list. -/
def taggedParse (fields : List FieldDesc) (kvs : List (String × Json)) :
    Except String (List (Option Json)) :=
  match fields with
  | [] => .ok []
  | f :: rest =>
      match kvs.lookup f.name with
      | some v =>
          if f.ok v then do
            let r ← taggedParse rest kvs
            .ok (some v :: r)
          else
            .error ("invalid type for field `" ++ f.name ++ "`")
      | none =>
          if f.optional || f.fixed.isSome then do
            let r ← taggedParse rest kvs
            .ok (none :: r)
          else
            .error ("missing field `" ++ f.name ++ "`")

/-- The fixed-field assertions of the tagged-object `Deserialize` impl
(`main.rs:588`–`601`): for each fixed field whose value is present, the
value must equal the literal, else the "invalid `…` value" error. -/
def checkFixed : List (FieldDesc × Option Json) → Except String Unit
  | [] => .ok ()
  | (f, ov) :: rest =>
      match f.fixed, ov with
      | some lit, some v =>
          if v = lit then checkFixed rest
          else .error ("invalid `" ++ f.name ++ "` value")
      | _, _ => checkFixed rest

/-- The `Ok(Self { … })` construction of the tagged-object `Deserialize`
impl (`main.rs:603`–`617`): only the non-fixed fields are assigned. -/
def taggedSelfAssign (l : List (FieldDesc × Option Json)) :
    List (String × Option Json) :=
  (l.filter fun p => p.1.fixed.isNone).map fun p => (p.1.name, p.2)

/-- The tagged-object `Deserialize` impl
(`render_impl_tagged_deserialize_stdout`, `main.rs:543`–`621`): parse the
shadow `Tagged` record from the object, assert every present fixed field
against its literal, then build the value from the non-fixed fields. -/
def emittedTaggedDeserialize (fields : List FieldDesc) (payload : Json) :
    Except String (List (String × Option Json)) :=
  match payload with
  | .obj kvs => do
      let vals ← taggedParse fields kvs.toList
      let _ ← checkFixed (fields.zip vals)
      .ok (taggedSelfAssign (fields.zip vals))
  | _ => .error "tagged deserializer expects a JSON object"

/-! ### Lemmas about the document merge -/

theorem lookup_cons_eq {β : Type} (k n : String) (v : β) (t : List (String × β)) :
    List.lookup n ((k, v) :: t) = if n = k then some v else List.lookup n t := by
  by_cases h : n = k
  · simp [List.lookup, h]
  · have hb : (n == k) = false := by simpa using h
    simp [List.lookup, hb, h]

theorem lookup_append {β : Type} (n : String) (l1 l2 : List (String × β)) :
    List.lookup n (l1 ++ l2)
      = Option.orElse (List.lookup n l1) fun _ => List.lookup n l2 := by
  induction l1 with
  | nil => simp
  | cons hd t ih =>
      cases hd with
      | mk k v =>
          by_cases hk : n = k
          · simp [List.lookup, hk]
          · have hb : (n == k) = false := by simpa using hk
            simp [List.lookup, hb, ih]

theorem mergeErrors_lookup (rest : List (String × ErrorType)) :
    ∀ (acc : List (String × ErrorType)) (n : String),
      List.lookup n (mergeErrors acc rest)
        = Option.orElse (List.lookup n acc) fun _ => List.lookup n rest := by
  induction rest with
  | nil => intro acc n; simp [mergeErrors]
  | cons hd t ih =>
      intro acc n
      cases hd with
      | mk k v =>
          rw [mergeErrors]
          by_cases hvac : (acc.lookup k).isSome
          · simp only [hvac, if_pos]
            rw [ih acc n, lookup_cons_eq]
            by_cases hnk : n = k
            · subst hnk
              obtain ⟨w, hw⟩ := Option.isSome_iff_exists.mp hvac
              simp [hw]
            · simp [hnk]
          · simp only [hvac, if_neg, Bool.not_eq_true]
            rw [ih (acc ++ [(k, v)]) n, lookup_append, lookup_cons_eq]
            by_cases hnk : n = k
            · subst hnk
              have hnone : acc.lookup n = none :=
                Option.not_isSome_iff_eq_none.mp hvac
              simp [hnone, lookup_cons_eq]
            · simp [hnk, lookup_cons_eq]

/-- C8: when the core and write documents are merged, write-spec methods
are appended after all core methods in order, and for every error name
the merged error map keeps the core document's definition when both
documents define it, taking the write-spec definition only for names
absent from the core map (first-wins). -/
theorem c8_merge_methods_and_errors_first_wins
    (core write : Specification) (n : String) :
    (mergeSpecs core write).methods = core.methods ++ write.methods ∧
    List.lookup n (mergeSpecs core write).components.errors
      = Option.orElse (List.lookup n core.components.errors)
          (fun _ => List.lookup n write.components.errors) := by
  refine ⟨rfl, ?_⟩
  exact mergeErrors_lookup write.components.errors core.components.errors n

/-! ### Concrete documents used to exercise the embedding -/

/-- An empty specification document. -/
def emptySpec : Specification :=
  { components := { schemas := [], errors := [] }, methods := [] }

/-- Empty fixed-field override table. -/
def emptyFixed : FixedFieldsOptions := { fixed_field_types := [] }

/-- Empty shared-ownership override table. -/
def emptyArc : ArcWrappingOptions := { arc_wrapped_types := [] }

/-- A document with a signature-like array schema, exercising the
`SerdeAs` codec wrapping for arrays. -/
def sigSpec : Specification :=
  { components :=
      { schemas := [("SIGNATURE", .arrayPrim {} (.ref {} "FELT")),
                    ("FELT", .stringPrim {} none)]
        errors := [] }
    methods := [] }

/-- C6 (amended): mapping an `Array` schema in field position recursively
maps the item schema and produces `Vec<item-type>`; an item codec of the
`SerdeAs` kind is wrapped — not replaced — into `SerdeAs "Vec<codec>"`;
an item codec of the `Serde` kind (`serde(with)`, i.e. base64 byte
blobs) is not supported: the Rust code hits a `todo!` and the mapping
aborts instead of returning a wrapped override. -/
theorem c6_array_field_wraps_serdeas_codec (specs : Specification)
    (meta : SchemaMeta) (items : Schema) (t : RustFieldType)
    (h : get_rust_type_for_field items specs = .ok t) :
    get_rust_type_for_field (.arrayPrim meta items) specs =
      match t.serializer with
      | none => .ok { type_name := "Vec<" ++ t.type_name ++ ">"
                      serializer := none }
      | some (.serdeAs s) =>
          .ok { type_name := "Vec<" ++ t.type_name ++ ">"
                serializer := some (.serdeAs ("Vec<" ++ s ++ ">")) }
      | some (.serde _) =>
          .error "Array wrapper for serde-with not implemented" := by
  obtain ⟨tn, ts⟩ := t
  cases ts with
  | none => simp only [get_rust_type_for_field, h]; rfl
  | some s => cases s <;> (simp only [get_rust_type_for_field, h]; rfl)

/-- C6 witness: for the concrete `SIGNATURE` item (codec
`SerdeAs "Vec<UfeHex>"` from the override table) the array mapping yields
`Vec<Vec<FieldElement>>` with the wrapped codec
`SerdeAs "Vec<Vec<UfeHex>>"`. -/
theorem c6_array_field_wraps_serdeas_codec_witness :
    get_rust_type_for_field (.arrayPrim {} (.ref {} "SIGNATURE")) sigSpec
      = .ok { type_name := "Vec<Vec<FieldElement>>"
              serializer := some (.serdeAs "Vec<Vec<UfeHex>>") } := by
  have h := c6_array_field_wraps_serdeas_codec sigSpec {} (.ref {} "SIGNATURE")
    { type_name := "Vec<FieldElement>"
      serializer := some (.serdeAs "Vec<UfeHex>") } (by rfl)
  exact h.trans (by rfl)

/-- C6 counterexample: a `String` item whose description mentions base64
carries the codec override `Serde "base64"`, yet mapping an array of it
does not return any wrapped override — it aborts with the
`todo!`-derived error.  This refutes the claim that *whenever* the item
carries a codec override the array returns the item's codec wrapped in a
sequence form. -/
theorem c6_counterexample_serde_with_item_codec_aborts :
    get_rust_type_for_field
        (.stringPrim { description := some "base64 encoded bytes" } none)
        emptySpec
      = .ok { type_name := "Vec<u8>", serializer := some (.serde "base64") }
    ∧ get_rust_type_for_field
        (.arrayPrim {}
          (.stringPrim { description := some "base64 encoded bytes" } none))
        emptySpec
      = .error "Array wrapper for serde-with not implemented" :=
  ⟨rfl, rfl⟩

/-- A document with one unsupported top-level union schema (`UNION`)
alongside a supported string-enum schema (`AAA`), one named error, and
one two-parameter method. -/
def oneOfDoc : Specification :=
  { components :=
      { schemas := [("AAA", .stringPrim {} (some ["X"])),
                    ("UNION", .oneOf {} (.cons (.ref {} "AAA") .nil))]
        errors := [("FAILED", .error 1 "Request failed")] }
    methods := [Method.mk "starknet_call"
      [ { name := "request", required := true, schema := .ref {} "AAA" },
        { name := "flag", required := false, schema := .booleanPrim {} } ]] }

/-- A document containing a top-level `String` schema without an
enumeration. -/
def bareStringDoc : Specification :=
  { components :=
      { schemas := [("AAA", .stringPrim {} (some ["X"])),
                    ("RAW", .stringPrim {} none)]
        errors := [] }
    methods := [] }

/-- C4 (amended): only a top-level `OneOf` is classified as
not-implemented (`Ok(None)`), letting the run record the name and
continue; a top-level `String` without an enumeration, and any other
unsupported shape (e.g. a bare `Integer`), abort classification — and
hence the whole run — with an error.  The concrete run shows the `OneOf`
document still emitting its supported types with the union listed as not
implemented. -/
theorem c4_only_oneof_degrades_not_bare_string :
    (∀ (fuel : Nat) (specs : Specification) (po : FlattenOption)
       (m : SchemaMeta) (vs : SchemaList),
        schema_to_rust_type_kind fuel specs (.oneOf m vs) po = .ok none)
    ∧ (∀ (fuel : Nat) (specs : Specification) (po : FlattenOption)
         (m : SchemaMeta),
        schema_to_rust_type_kind fuel specs (.stringPrim m none) po
          = .error "Unexpected non-enum string type when generating struct/enum")
    ∧ (∀ (fuel : Nat) (specs : Specification) (po : FlattenOption)
         (m : SchemaMeta),
        schema_to_rust_type_kind fuel specs (.integerPrim m) po
          = .error "Unexpected schema type when generating struct/enum")
    ∧ (resolve_types 9 oneOfDoc (.selected []) [] emptyFixed emptyArc).map
        (fun r => (r.model_types.map (fun t => t.name), r.not_implemented))
        = .ok (["Aaa", "StarknetError"], ["UNION"]) := by
  refine ⟨fun fuel specs po m vs => rfl, fun fuel specs po m => rfl,
    fun fuel specs po m => rfl, by rfl⟩

/-- C4 counterexample: a document with a top-level non-enum `String`
schema (`RAW`) does not produce a degraded run with `RAW` in the
not-implemented list — `resolve_types` aborts with an error, refuting the
claim that such a schema is recorded and the run continues. -/
theorem c4_counterexample_bare_string_aborts :
    resolve_types 9 bareStringDoc (.selected []) [] emptyFixed emptyArc
      = .error "Unexpected non-enum string type when generating struct/enum" :=
  rfl

/-! ### Lemmas about the pascal-case transform -/

theorem toNat_ofNat_of_valid (n : Nat) (h : n.isValidChar) :
    (Char.ofNat n).toNat = n := by
  unfold Char.ofNat
  rw [dif_pos h]
  simp [Char.ofNatAux, Char.toNat, UInt32.toNat]

theorem toUpper_toUpper (c : Char) : c.toUpper.toUpper = c.toUpper := by
  unfold Char.toUpper
  by_cases h : 97 ≤ c.toNat ∧ c.toNat ≤ 122
  · have hv : (c.toNat - 32).isValidChar := by left; omega
    rw [if_pos h, toNat_ofNat_of_valid _ hv]
    have hout : ¬(97 ≤ c.toNat - 32 ∧ c.toNat - 32 ≤ 122) := by omega
    rw [if_neg hout]
  · rw [if_neg h, if_neg h]

theorem toLower_toLower (c : Char) : c.toLower.toLower = c.toLower := by
  unfold Char.toLower
  by_cases h : 65 ≤ c.toNat ∧ c.toNat ≤ 90
  · have hv : (c.toNat + 32).isValidChar := by left; omega
    rw [if_pos h, toNat_ofNat_of_valid _ hv]
    have hout : ¬(65 ≤ c.toNat + 32 ∧ c.toNat + 32 ≤ 90) := by omega
    rw [if_neg hout]
  · rw [if_neg h, if_neg h]

theorem toUpper_ne_underscore (c : Char) (h : c ≠ '_') : c.toUpper ≠ '_' := by
  unfold Char.toUpper
  by_cases hr : 97 ≤ c.toNat ∧ c.toNat ≤ 122
  · rw [if_pos hr]
    intro heq
    have := congrArg Char.toNat heq
    rw [toNat_ofNat_of_valid _ (by left; omega)] at this
    have h95 : ('_').toNat = 95 := by decide
    omega
  · rw [if_neg hr]; exact h

theorem toLower_ne_underscore (c : Char) (h : c ≠ '_') : c.toLower ≠ '_' := by
  unfold Char.toLower
  by_cases hr : 65 ≤ c.toNat ∧ c.toNat ≤ 90
  · rw [if_pos hr]
    intro heq
    have := congrArg Char.toNat heq
    rw [toNat_ofNat_of_valid _ (by left; omega)] at this
    have h95 : ('_').toNat = 95 := by decide
    omega
  · rw [if_neg hr]; exact h

/-- The word-start flag corresponding to index `k` with last recorded
underscore `lu`. -/
def pascalUp (k : Nat) (lu : Option Nat) : Bool :=
  match lu with
  | some j => k == j + 1
  | none => k == 0

theorem foldl_pascalStep_enumFrom (l : List Char) :
    ∀ (k : Nat) (lu : Option Nat) (acc : List Char),
      (∀ j, lu = some j → j < k) →
      ((List.enumFrom k l).foldl pascalStep (lu, acc)).2
        = acc ++ pascalAux (pascalUp k lu) l := by
  induction l with
  | nil => intro k lu acc _; simp [pascalAux, List.enumFrom]
  | cons c rest ih =>
      intro k lu acc hlt
      by_cases hc : c = '_'
      · subst hc
        have hstep : pascalStep (lu, acc) (k, '_') = (some k, acc) := by
          simp [pascalStep]
        simp only [List.enumFrom, List.foldl_cons, hstep]
        rw [ih (k + 1) (some k) acc (by intro j hj; cases hj; omega)]
        simp [pascalAux, pascalUp]
      · have hstep : pascalStep (lu, acc) (k, c)
            = (lu, acc ++ [if pascalUp k lu then c.toUpper else c.toLower]) := by
          cases lu <;> simp [pascalStep, pascalUp, hc]
        have hup : pascalUp (k + 1) lu = false := by
          cases lu with
          | none => simp [pascalUp]
          | some j =>
              have hj := hlt j rfl
              have hne : k + 1 ≠ j + 1 := by omega
              simpa [pascalUp] using hne
        simp only [List.enumFrom, List.foldl_cons, hstep]
        rw [ih (k + 1) lu (acc ++ [if pascalUp k lu then c.toUpper
          else c.toLower]) (by intro j hj; have := hlt j hj; omega), hup]
        simp [pascalAux, hc]

theorem to_pascal_case_eq_pascalAux (name : String) :
    to_pascal_case name = ⟨pascalAux true name.data⟩ := by
  unfold to_pascal_case
  have h := foldl_pascalStep_enumFrom name.data 0 none []
    (by intro j hj; cases hj)
  have henum : name.data.enum = List.enumFrom 0 name.data := rfl
  rw [henum, h]
  rfl

theorem pascalAux_false_of_no_underscore (l : List Char) (h : '_' ∉ l) :
    pascalAux false l = l.map Char.toLower := by
  induction l with
  | nil => rfl
  | cons c rest ih =>
      have hc : c ≠ '_' := fun e => h (e ▸ List.mem_cons_self c rest)
      have hrest : '_' ∉ rest := fun e => h (List.mem_cons_of_mem c e)
      simp [pascalAux, hc, ih hrest]

theorem pascalAux_true_of_no_underscore (c : Char) (rest : List Char)
    (h : '_' ∉ c :: rest) :
    pascalAux true (c :: rest) = c.toUpper :: rest.map Char.toLower := by
  have hc : c ≠ '_' := fun e => h (e ▸ List.mem_cons_self c rest)
  have hrest : '_' ∉ rest := fun e => h (List.mem_cons_of_mem c e)
  simp [pascalAux, hc, pascalAux_false_of_no_underscore rest hrest]

/-- C9 (amended): the pascal-case transform is idempotent on every name
containing no underscore: the output of `to_pascal_case` on such a name
has no interior word boundaries, so a second application only re-applies
the (idempotent) ascii case mappings. -/
theorem c9_pascal_case_idempotent_on_underscore_free (name : String)
    (h : '_' ∉ name.data) :
    to_pascal_case (to_pascal_case name) = to_pascal_case name := by
  rw [to_pascal_case_eq_pascalAux name]
  rw [to_pascal_case_eq_pascalAux ⟨pascalAux true name.data⟩]
  cases hd : name.data with
  | nil => rfl
  | cons c rest =>
      have hnus : '_' ∉ c :: rest := hd ▸ h
      have hrest : '_' ∉ rest := fun e => hnus (List.mem_cons_of_mem c e)
      rw [pascalAux_true_of_no_underscore c rest hnus]
      have hmapnus : '_' ∉ rest.map Char.toLower := by
        intro hm
        obtain ⟨x, hx, hxe⟩ := List.mem_map.mp hm
        exact toLower_ne_underscore x
          (fun e => hrest (e ▸ hx)) hxe
      have hne : c.toUpper ≠ '_' :=
        toUpper_ne_underscore c (fun e => hnus (e ▸ List.mem_cons_self c rest))
      have houter : '_' ∉ c.toUpper :: rest.map Char.toLower := by
        intro hm
        rcases List.mem_cons.mp hm with he | hm2
        · exact hne he.symm
        · exact hmapnus hm2
      show (⟨pascalAux true (c.toUpper :: rest.map Char.toLower)⟩ : String)
        = ⟨c.toUpper :: rest.map Char.toLower⟩
      rw [pascalAux_true_of_no_underscore _ _ houter]
      rw [toUpper_toUpper]
      have hmm : (rest.map Char.toLower).map Char.toLower
          = rest.map Char.toLower := by
        rw [List.map_map]
        exact List.map_congr_left fun x _ => toLower_toLower x
      rw [hmm]

/-- C9 witness: the underscore-free name `blockHash` is a fixed point of
a second application of the transform. -/
theorem c9_pascal_case_idempotent_witness :
    '_' ∉ "blockHash".data
    ∧ to_pascal_case (to_pascal_case "blockHash")
        = to_pascal_case "blockHash" :=
  ⟨by decide,
   c9_pascal_case_idempotent_on_underscore_free "blockHash" (by decide)⟩

/-- C9 counterexample: the transform is not idempotent in general — the
multi-word name `BLOCK_HASH` transforms to `BlockHash`, and a second
application lower-cases the interior capital, giving `Blockhash`; the
full type-name transform inherits the same failure. -/
theorem c9_counterexample_block_hash_not_idempotent :
    to_pascal_case "BLOCK_HASH" = "BlockHash"
    ∧ to_pascal_case (to_pascal_case "BLOCK_HASH") = "Blockhash"
    ∧ to_starknet_rs_name (to_starknet_rs_name "BLOCK_HASH")
        ≠ to_starknet_rs_name "BLOCK_HASH" :=
  ⟨rfl, rfl, by decide⟩

/-! ### Inversion lemmas for the resolution pipeline -/

theorem except_bind_ok {α β : Type} (x : Except String α)
    (f : α → Except String β) (b : β) (h : (x >>= f) = .ok b) :
    ∃ a, x = .ok a ∧ f a = .ok b := by
  cases x with
  | error e => simp [Bind.bind, Except.bind] at h
  | ok a => exact ⟨a, rfl, by simpa [Bind.bind, Except.bind] using h⟩

theorem mapM_ok_forall2 {α β : Type} (f : α → Except String β) :
    ∀ (l : List α) (ys : List β), l.mapM f = .ok ys →
      List.Forall₂ (fun x y => f x = .ok y) l ys := by
  intro l
  induction l with
  | nil =>
      intro ys h
      simp only [List.mapM_nil] at h
      cases h
      exact List.Forall₂.nil
  | cons x xs ih =>
      intro ys h
      rw [List.mapM_cons] at h
      obtain ⟨y, hy, h2⟩ := except_bind_ok _ _ _ h
      obtain ⟨ys', hys', h3⟩ := except_bind_ok _ _ _ h2
      cases h3
      exact List.Forall₂.cons hy (ih ys' hys')

/-- The field list of an IR type kind (only structs carry fields). -/
def RustTypeKind.fields : RustTypeKind → List RustField
  | .struct_ s => s.fields
  | _ => []

/-- Splitting a successful `resolve_types` run into its stages. -/
theorem resolve_types_ok_parts (fuel : Nat) (specs : Specification)
    (po : FlattenOption) (ig : List String) (fx : FixedFieldsOptions)
    (ar : ArcWrappingOptions) (result : TypeResolutionResult)
    (h : resolve_types fuel specs po ig fx ar = .ok result) :
    ∃ types not_impl err_type req_types,
      resolveModelTypes fuel specs po ig fx ar
          (get_flatten_only_schemas specs po) specs.components.schemas
        = .ok (types, not_impl)
      ∧ starknetErrorType specs = .ok err_type
      ∧ specs.methods.mapM (buildRequestType specs) = .ok req_types
      ∧ result.model_types
          = List.insertionSort byNameLe (types ++ [err_type])
      ∧ result.request_response_types
          = List.insertionSort byNameLe req_types
      ∧ result.not_implemented
          = List.insertionSort strLeProp not_impl := by
  unfold resolve_types at h
  obtain ⟨p, hp, h2⟩ := except_bind_ok _ _ _ h
  obtain ⟨tp, np⟩ := p
  obtain ⟨err_type, herr, h3⟩ := except_bind_ok _ _ _ h2
  obtain ⟨req_types, hreq, h4⟩ := except_bind_ok _ _ _ h3
  refine ⟨tp, np, err_type, req_types, hp, herr, hreq, ?_, ?_, ?_⟩
  all_goals cases h4; rfl

theorem buildRequestFields_no_overrides (specs : Specification) :
    ∀ (ps : List Param) (fs : List RustField),
      buildRequestFields specs ps = .ok fs →
      ∀ f ∈ fs, f.fixed = none ∧ f.arc_wrap = false := by
  intro ps
  induction ps with
  | nil =>
      intro fs h
      cases h
      intro f hf
      cases hf
  | cons p rest ih =>
      intro fs h
      rw [buildRequestFields] at h
      obtain ⟨ft, hft, h2⟩ := except_bind_ok _ _ _ h
      obtain ⟨fs', hfs', h3⟩ := except_bind_ok _ _ _ h2
      cases h3
      intro f hf
      rcases List.mem_cons.mp hf with he | hm
      · subst he
        exact ⟨rfl, rfl⟩
      · exact ih fs' hfs' f hm

/-! ### The by-name order used for sorting -/

theorem strLeChars_total : ∀ a b : List Char,
    strLeChars a b = true ∨ strLeChars b a = true
  | [], _ => Or.inl rfl
  | _ :: _, [] => Or.inr rfl
  | a :: as, b :: bs => by
      by_cases h1 : a.toNat < b.toNat
      · left; simp [strLeChars, h1]
      · by_cases h2 : b.toNat < a.toNat
        · right; simp [strLeChars, h2]
        · rcases strLeChars_total as bs with h | h
          · left; simp [strLeChars, h1, h2, h]
          · right; simp [strLeChars, h1, h2, h]

theorem strLeChars_trans : ∀ a b c : List Char,
    strLeChars a b = true → strLeChars b c = true → strLeChars a c = true
  | [], _, _, _, _ => rfl
  | _ :: _, [], _, hab, _ => by simp [strLeChars] at hab
  | _ :: _, _ :: _, [], _, hbc => by simp [strLeChars] at hbc
  | a :: as, b :: bs, c :: cs, hab, hbc => by
      simp only [strLeChars] at hab hbc ⊢
      split_ifs at hab hbc ⊢ <;>
        first
          | rfl
          | omega
          | exact strLeChars_trans as bs cs hab hbc

instance : IsTotal RustType byNameLe :=
  ⟨fun a b => strLeChars_total a.name.data b.name.data⟩

instance : IsTrans RustType byNameLe :=
  ⟨fun a b c => strLeChars_trans a.name.data b.name.data c.name.data⟩

instance : IsTotal String strLeProp :=
  ⟨fun a b => strLeChars_total a.data b.data⟩

instance : IsTrans String strLeProp :=
  ⟨fun a b c => strLeChars_trans a.data b.data c.data⟩

/-! ### Request-type synthesis facts -/

theorem forall2_mem_right {α β : Type} {r : α → β → Prop} :
    ∀ {l1 : List α} {l2 : List β}, List.Forall₂ r l1 l2 →
      ∀ b ∈ l2, ∃ a ∈ l1, r a b := by
  intro l1 l2 h
  induction h with
  | nil => intro b hb; cases hb
  | @cons a b l1' l2' hr _ ih =>
      intro x hx
      rcases List.mem_cons.mp hx with he | hm
      · subst he
        exact ⟨a, List.mem_cons_self a l1', hr⟩
      · obtain ⟨a', ha', hra'⟩ := ih x hm
        exact ⟨a', List.mem_cons_of_mem a ha', hra'⟩

theorem buildRequestType_ok_shape (specs : Specification) (m : Method)
    (t : RustType) (h : buildRequestType specs m = .ok t) :
    ∃ fs, buildRequestFields specs m.params = .ok fs
      ∧ t.content = (if fs.isEmpty then
          RustTypeKind.unit { serde_as_array := true }
        else
          RustTypeKind.struct_ { serde_as_array := true
                                 extra_ref_type := true
                                 fields := fs }) := by
  unfold buildRequestType at h
  obtain ⟨fs, hfs, h2⟩ := except_bind_ok _ _ _ h
  cases h2
  exact ⟨fs, hfs, rfl⟩

theorem buildRequestFields_names_optionals (specs : Specification) :
    ∀ (ps : List Param) (fs : List RustField),
      buildRequestFields specs ps = .ok fs →
      fs.map (fun f => f.name) = ps.map (fun p => p.name)
      ∧ fs.map (fun f => f.optional) = ps.map (fun p => !p.required) := by
  intro ps
  induction ps with
  | nil =>
      intro fs h
      cases h
      exact ⟨rfl, rfl⟩
  | cons p rest ih =>
      intro fs h
      rw [buildRequestFields] at h
      obtain ⟨ft, hft, h2⟩ := except_bind_ok _ _ _ h
      obtain ⟨fs', hfs', h3⟩ := except_bind_ok _ _ _ h2
      cases h3
      obtain ⟨hn, ho⟩ := ih fs' hfs'
      exact ⟨by simp [hn], by simp [ho]⟩

/-- C10: the fixed-field and shared-ownership override tables never reach
the synthesized request types — every field of every request type has no
fixed value and no shared-ownership wrapping, whatever the tables contain
— and a non-struct model type carries no fields at all. -/
theorem c10_no_overrides_outside_model_structs (fuel : Nat)
    (specs : Specification) (po : FlattenOption) (ig : List String)
    (fx : FixedFieldsOptions) (ar : ArcWrappingOptions)
    (result : TypeResolutionResult)
    (h : resolve_types fuel specs po ig fx ar = .ok result) :
    (∀ t ∈ result.request_response_types, ∀ f ∈ t.content.fields,
        f.fixed = none ∧ f.arc_wrap = false)
    ∧ (∀ t ∈ result.model_types,
        (∀ s, t.content ≠ RustTypeKind.struct_ s) → t.content.fields = []) := by
  obtain ⟨types, ni, err, reqs, _, _, hreq, _, hrr, _⟩ :=
    resolve_types_ok_parts fuel specs po ig fx ar result h
  constructor
  · intro t ht f hf
    rw [hrr] at ht
    have ht' : t ∈ reqs := (List.perm_insertionSort byNameLe reqs).mem_iff.mp ht
    have hf2 := mapM_ok_forall2 (buildRequestType specs) specs.methods reqs hreq
    obtain ⟨m, _, hbt⟩ := forall2_mem_right hf2 t ht'
    obtain ⟨fs, hfs, hc⟩ := buildRequestType_ok_shape specs m t hbt
    rw [hc] at hf
    by_cases hemp : fs.isEmpty
    · rw [if_pos hemp] at hf
      cases hf
    · rw [if_neg hemp] at hf
      exact buildRequestFields_no_overrides specs m.params fs hfs f hf
  · intro t _ hns
    cases hct : t.content with
    | struct_ s => exact absurd hct (hns s)
    | enum_ e => rfl
    | wrapper w => rfl
    | unit u => rfl

/-- C5: a successful run synthesizes exactly one request type per method
(the request list is a permutation of one entry per method): an
array-encoded `Unit` for a parameterless method, otherwise an
array-encoded struct with a borrowed/view counterpart whose fields carry
exactly the parameter names in declaration order, each optional precisely
when its parameter is not required. -/
theorem c5_one_request_type_per_method (fuel : Nat) (specs : Specification)
    (po : FlattenOption) (ig : List String) (fx : FixedFieldsOptions)
    (ar : ArcWrappingOptions) (result : TypeResolutionResult)
    (h : resolve_types fuel specs po ig fx ar = .ok result) :
    ∃ reqs, specs.methods.mapM (buildRequestType specs) = .ok reqs
      ∧ result.request_response_types.Perm reqs
      ∧ List.Forall₂ (fun (m : Method) (t : RustType) =>
          (m.params = [] →
            t.content = RustTypeKind.unit { serde_as_array := true })
          ∧ (m.params ≠ [] → ∃ fs,
              t.content = RustTypeKind.struct_
                { serde_as_array := true
                  extra_ref_type := true
                  fields := fs }
              ∧ fs.map (fun f => f.name) = m.params.map (fun p => p.name)
              ∧ fs.map (fun f => f.optional)
                  = m.params.map (fun p => !p.required)))
        specs.methods reqs := by
  obtain ⟨types, ni, err, reqs, _, _, hreq, _, hrr, _⟩ :=
    resolve_types_ok_parts fuel specs po ig fx ar result h
  refine ⟨reqs, hreq, ?_, ?_⟩
  · rw [hrr]
    exact List.perm_insertionSort byNameLe reqs
  · have hf2 := mapM_ok_forall2 (buildRequestType specs) specs.methods reqs hreq
    refine List.Forall₂.imp ?_ hf2
    intro m t hbt
    obtain ⟨fs, hfs, hc⟩ := buildRequestType_ok_shape specs m t hbt
    obtain ⟨hnames, hopts⟩ := buildRequestFields_names_optionals specs
      m.params fs hfs
    constructor
    · intro hpe
      have hfse : fs = [] := by
        have := hnames
        rw [hpe] at this
        simpa using this
      rw [hc, hfse]
      rfl
    · intro hpne
      have hfse : fs ≠ [] := by
        intro he
        rw [he] at hnames
        have : m.params.map (fun p => p.name) = [] := hnames.symm
        exact hpne (by simpa using this)
      refine ⟨fs, ?_, hnames, hopts⟩
      rw [hc, if_neg (by simpa [List.isEmpty_iff] using hfse)]

/-- C7 (amended): in every successful run the three output lists — model
types, request types and not-implemented names — are sorted by name (the
run itself is a pure function of the document and the override tables);
struct fields are not sorted: they keep declaration order. -/
theorem c7_type_lists_sorted_by_name (fuel : Nat) (specs : Specification)
    (po : FlattenOption) (ig : List String) (fx : FixedFieldsOptions)
    (ar : ArcWrappingOptions) (result : TypeResolutionResult)
    (h : resolve_types fuel specs po ig fx ar = .ok result) :
    result.model_types.Sorted byNameLe
    ∧ result.request_response_types.Sorted byNameLe
    ∧ result.not_implemented.Sorted strLeProp := by
  obtain ⟨types, ni, err, reqs, _, _, _, hmod, hrr, hni⟩ :=
    resolve_types_ok_parts fuel specs po ig fx ar result h
  refine ⟨?_, ?_, ?_⟩
  · rw [hmod]
    exact List.sorted_insertionSort byNameLe (types ++ [err])
  · rw [hrr]
    exact List.sorted_insertionSort byNameLe reqs
  · rw [hni]
    exact List.sorted_insertionSort strLeProp ni

/-- A document whose single object schema declares its properties in
non-alphabetical order (`b` before `a`). -/
def unsortedFieldsDoc : Specification :=
  { components :=
      { schemas := [("THING",
          .objectPrim {}
            (.cons "b" (.booleanPrim {}) (.cons "a" (.booleanPrim {}) .nil))
            (some ["b", "a"]))]
        errors := [] }
    methods := [] }

/-- C7 counterexample: the emitted `Thing` struct keeps its fields in
declaration order `[b, a]`, which is not sorted by name (`strLe "b" "a"`
fails) — refuting the claim that fields are sorted by name before
rendering; only the type lists are. -/
theorem c7_counterexample_fields_not_sorted :
    ((resolve_types 9 unsortedFieldsDoc (.selected []) [] emptyFixed
        emptyArc).toOption.map
      (fun r => r.model_types.map fun t => t.content.fields.map fun f => f.name))
      = some [[], ["b", "a"]]
    ∧ strLe "b" "a" = false :=
  ⟨rfl, rfl⟩

/-- The resolved result of the `oneOfDoc` run with empty override
tables. -/
def oneOfResolved : TypeResolutionResult :=
  (resolve_types 9 oneOfDoc (.selected []) [] emptyFixed
    emptyArc).toOption.getD ⟨[], [], []⟩

/-- C7 witness: the concrete run's three lists are sorted. -/
theorem c7_type_lists_sorted_by_name_witness :
    oneOfResolved.model_types.Sorted byNameLe
    ∧ oneOfResolved.not_implemented.Sorted strLeProp := by
  have h := c7_type_lists_sorted_by_name 9 oneOfDoc (.selected []) []
    emptyFixed emptyArc oneOfResolved (by rfl)
  exact ⟨h.1, h.2.2⟩

/-- C5 witness: in the concrete run the single method `starknet_call`
yields exactly one request type, and the projected request list length
matches the method count. -/
theorem c5_one_request_type_per_method_witness :
    oneOfResolved.request_response_types.length = oneOfDoc.methods.length
    ∧ oneOfResolved.request_response_types.map
        (fun t => (t.name, t.content.fields.map fun f => (f.name, f.optional)))
        = [("CallRequest", [("request", false), ("flag", true)])] := by
  obtain ⟨reqs, hreq, hperm, hf2⟩ := c5_one_request_type_per_method 9 oneOfDoc
    (.selected []) [] emptyFixed emptyArc oneOfResolved (by rfl)
  refine ⟨?_, by rfl⟩
  rw [hperm.length_eq, hf2.length_eq]

/-- The fixed-field table used to exercise C10: it names the request type
`CallRequest` directly, yet must not affect it. -/
def c10Fx : FixedFieldsOptions :=
  { fixed_field_types :=
      [{ name := "CallRequest", fields := [{ name := "flag", value := "true" }] }] }

/-- The shared-ownership table used to exercise C10. -/
def c10Ar : ArcWrappingOptions :=
  { arc_wrapped_types := [{ name := "CallRequest", fields := ["request"] }] }

/-- The resolved result of the `oneOfDoc` run with override tables that
name the request type. -/
def c10Resolved : TypeResolutionResult :=
  (resolve_types 9 oneOfDoc (.selected []) [] c10Fx c10Ar).toOption.getD
    ⟨[], [], []⟩

/-- C10 witness: even with override tables naming `CallRequest` and its
fields, no request field is fixed or shared-ownership wrapped. -/
theorem c10_no_overrides_outside_model_structs_witness :
    c10Resolved.request_response_types.all
      (fun t => t.content.fields.all fun f => f.fixed.isNone && !f.arc_wrap)
      = true := by
  have h := (c10_no_overrides_outside_model_structs 9 oneOfDoc (.selected [])
    [] c10Fx c10Ar c10Resolved (by rfl)).1
  rw [List.all_eq_true]
  intro t ht
  rw [List.all_eq_true]
  intro f hf
  obtain ⟨h1, h2⟩ := h t ht f hf
  simp [h1, h2]

/-! ### Behaviour of the emitted positional-array deserializer -/

theorem zip_trunc {α β : Type} :
    ∀ (l1 : List α) (l2 : List β), l1.zip l2 = l1.zip (l2.take l1.length) := by
  intro l1
  induction l1 with
  | nil => intro l2; rfl
  | cons a as ih =>
      intro l2
      cases l2 with
      | nil => rfl
      | cons b bs => simp [List.zip_cons_cons, ih bs]

theorem zip_reverse_of_length_eq {α β : Type} :
    ∀ (l1 : List α) (l2 : List β), l1.length = l2.length →
      l1.reverse.zip l2.reverse = (l1.zip l2).reverse := by
  intro l1
  induction l1 with
  | nil =>
      intro l2 h
      cases l2 with
      | nil => rfl
      | cons b bs => cases h
  | cons a as ih =>
      intro l2 h
      cases l2 with
      | nil => cases h
      | cons b bs =>
          have hlen : as.length = bs.length := by simpa using h
          have hrev : as.reverse.length = bs.reverse.length := by
            simpa using hlen
          simp only [List.reverse_cons, List.zip_cons_cons]
          rw [List.zip_append hrev, ih bs hlen]
          rfl

theorem popPath_ok_of_le :
    ∀ (fs : List FieldDesc) (es : List Json),
      fs.length ≤ es.length →
      (∀ p ∈ fs.zip es, p.1.ok p.2 = true) →
      popPath fs es
        = .ok (((fs.zip es).map fun p => (p.1.name, some p.2)).reverse) := by
  intro fs
  induction fs with
  | nil => intro es _ _; rfl
  | cons f fs' ih =>
      intro es hlen hok
      cases es with
      | nil => simp at hlen
      | cons e es' =>
          have hhead : f.ok e = true :=
            hok (f, e) (by simp [List.zip_cons_cons])
          have hrest := ih es' (by simpa using hlen)
            (fun p hp => hok p (by simp [List.zip_cons_cons]; right; exact hp))
          simp [popPath, hhead, hrest, Bind.bind, Except.bind]

theorem popPath_short :
    ∀ (fs : List FieldDesc) (es : List Json),
      es.length < fs.length → ∃ msg, popPath fs es = .error msg := by
  intro fs
  induction fs with
  | nil => intro es h; simp at h
  | cons f fs' ih =>
      intro es hlen
      cases es with
      | nil => exact ⟨"invalid sequence length", rfl⟩
      | cons e es' =>
          by_cases hok : f.ok e = true
          · obtain ⟨msg, hmsg⟩ := ih es' (by simpa using hlen)
            exact ⟨msg, by simp [popPath, hok, hmsg, Bind.bind, Except.bind]⟩
          · exact ⟨"failed to parse element",
              by simp [popPath, hok]⟩

/-- C2 (amended): the emitted positional-array `Deserialize` accepts a
JSON array with **at least** N elements — consuming the **last** N by
popping from the tail in reverse field order and reassigning each popped
element to its original, non-reversed field identity (field `i` receives
element `i` of the consumed window), silently ignoring any extra leading
elements — or a JSON object keyed by the field names; an array with fewer
than N elements, or a payload that is neither array nor object, is a
decode error. -/
theorem c2_array_deserialize_reverse_pop_object_fallback :
    (∀ (fields : List FieldDesc) (elems : JsonList),
        fields.length ≤ elems.toList.length →
        (∀ p ∈ fields.zip
            (elems.toList.drop (elems.toList.length - fields.length)),
          p.1.ok p.2 = true) →
        emittedArrayDeserialize fields (.arr elems)
          = .ok ((fields.zip
                (elems.toList.drop (elems.toList.length - fields.length))).map
              fun p => (p.1.name, some p.2)))
    ∧ (∀ (fields : List FieldDesc) (elems : JsonList),
        elems.toList.length < fields.length →
        ∃ msg, emittedArrayDeserialize fields (.arr elems) = .error msg)
    ∧ (∀ (fields : List FieldDesc) (kvs : JsonKvs)
         (a : List (String × Option Json)),
        asObjectParse fields kvs.toList = some a →
        emittedArrayDeserialize fields (.obj kvs) = .ok a)
    ∧ (∀ (fields : List FieldDesc) (payload : Json),
        (∀ es, payload ≠ .arr es) → (∀ kv, payload ≠ .obj kv) →
        emittedArrayDeserialize fields payload
          = .error "invalid sequence length") := by
  refine ⟨?_, ?_, ?_, ?_⟩
  · intro fields elems hlen hok
    have hzip : fields.reverse.zip elems.toList.reverse
        = (fields.zip (elems.toList.drop
            (elems.toList.length - fields.length))).reverse := by
      rw [zip_trunc fields.reverse elems.toList.reverse,
        List.length_reverse, List.take_reverse]
      exact zip_reverse_of_length_eq fields _ (by rw [List.length_drop]; omega)
    have hlen2 : fields.reverse.length ≤ elems.toList.reverse.length := by
      simpa using hlen
    have hok2 : ∀ p ∈ fields.reverse.zip elems.toList.reverse,
        p.1.ok p.2 = true := by
      rw [hzip]
      intro p hp
      exact hok p (List.mem_reverse.mp hp)
    have hmain := popPath_ok_of_le fields.reverse elems.toList.reverse
      hlen2 hok2
    rw [hzip, List.map_reverse, List.reverse_reverse] at hmain
    exact hmain
  · intro fields elems hlen
    have := popPath_short fields.reverse elems.toList.reverse (by simpa using hlen)
    exact this
  · intro fields kvs a h
    simp [emittedArrayDeserialize, h]
  · intro fields payload ha ho
    cases payload with
    | arr es => exact absurd rfl (ha es)
    | obj kv => exact absurd rfl (ho kv)
    | null => rfl
    | bool b => rfl
    | num n => rfl
    | str s => rfl

/-- A text-only field used in the targeted reverse-pop test. -/
def tField : FieldDesc :=
  { name := "t", optional := false, fixed := none
    ok := fun j => match j with | .str _ => true | _ => false }

/-- A number-only field used in the targeted reverse-pop test. -/
def nField : FieldDesc :=
  { name := "n", optional := false, fixed := none
    ok := fun j => match j with | .num _ => true | _ => false }

/-- A boolean-only field used in the targeted reverse-pop test. -/
def bField : FieldDesc :=
  { name := "b", optional := false, fixed := none
    ok := fun j => match j with | .bool _ => true | _ => false }

/-- C2 witness: the three-distinctly-typed-fields test — decoding
`["x", 5, true]` into (text, number, boolean) fields transposes
nothing. -/
theorem c2_array_deserialize_reverse_pop_witness :
    emittedArrayDeserialize [tField, nField, bField]
        (.arr (.cons (.str "x") (.cons (.num 5) (.cons (.bool true) .nil))))
      = .ok [("t", some (.str "x")), ("n", some (.num 5)),
             ("b", some (.bool true))] := by
  have h := c2_array_deserialize_reverse_pop_object_fallback.1
    [tField, nField, bField]
    (.cons (.str "x") (.cons (.num 5) (.cons (.bool true) .nil)))
    (by decide) (by decide)
  exact h.trans (by rfl)

/-- A field accepting any JSON value. -/
def anyField : FieldDesc :=
  { name := "a", optional := false, fixed := none, ok := fun _ => true }

/-- C2 counterexample: a 1-field array-encoded struct decodes a 2-element
array **successfully** (taking the last element and silently discarding
the first), so an array of the wrong arity does not always produce a
decode error as claimed — only under-length arrays are rejected. -/
theorem c2_counterexample_overlong_array_accepted :
    emittedArrayDeserialize [anyField]
        (.arr (.cons (.str "x") (.cons (.str "y") .nil)))
      = .ok [("a", some (.str "y"))] := rfl

/-! ### Behaviour of the emitted tagged-object codec for fixed fields -/

theorem checkFixed_ok_of :
    ∀ (l : List (FieldDesc × Option Json)),
      (∀ p ∈ l, ∀ lit v, p.1.fixed = some lit → p.2 = some v → v = lit) →
      checkFixed l = .ok () := by
  intro l
  induction l with
  | nil => intro _; rfl
  | cons p rest ih =>
      intro h
      obtain ⟨f, ov⟩ := p
      have hrest := ih fun q hq => h q (List.mem_cons_of_mem _ hq)
      cases hf : f.fixed with
      | none => simpa [checkFixed, hf] using hrest
      | some lit =>
          cases hov : ov with
          | none => simpa [checkFixed, hf] using hrest
          | some v =>
              have hv : v = lit :=
                h (f, some v) (by rw [← hov]; exact List.mem_cons_self _ _)
                  lit v hf rfl
              simpa [checkFixed, hf, hv] using hrest

theorem checkFixed_error_of :
    ∀ (l : List (FieldDesc × Option Json)),
      (∃ p ∈ l, ∃ lit v, p.1.fixed = some lit ∧ p.2 = some v ∧ v ≠ lit) →
      ∃ msg, checkFixed l = .error msg := by
  intro l
  induction l with
  | nil => rintro ⟨p, hp, _⟩; cases hp
  | cons q rest ih =>
      rintro ⟨p, hp, lit, v, hfix, hval, hne⟩
      obtain ⟨f, ov⟩ := q
      rcases List.mem_cons.mp hp with he | hm
      · subst he
        simp only at hfix hval
        subst hval
        refine ⟨"invalid `" ++ f.name ++ "` value", ?_⟩
        simp [checkFixed, hfix, hne]
      · cases hf : f.fixed with
        | none =>
            obtain ⟨msg, hmsg⟩ := ih ⟨p, hm, lit, v, hfix, hval, hne⟩
            exact ⟨msg, by simpa [checkFixed, hf] using hmsg⟩
        | some lit' =>
            cases hov : ov with
            | none =>
                obtain ⟨msg, hmsg⟩ := ih ⟨p, hm, lit, v, hfix, hval, hne⟩
                exact ⟨msg, by simpa [checkFixed, hf] using hmsg⟩
            | some v' =>
                by_cases hv : v' = lit'
                · obtain ⟨msg, hmsg⟩ := ih ⟨p, hm, lit, v, hfix, hval, hne⟩
                  exact ⟨msg, by simpa [checkFixed, hf, hv] using hmsg⟩
                · exact ⟨"invalid `" ++ f.name ++ "` value",
                    by simp [checkFixed, hf, hv]⟩

/-- C3: a fixed field is never user-settable — (a) the rendered struct
definition contains exactly the non-fixed fields; (b) the emitted
tagged-object `Serialize` writes the fixed field's literal value,
whatever value the program holds; (c) the emitted tagged-object
`Deserialize` accepts a payload in which every present fixed field equals
its literal (in particular one omitting the field entirely), building the
value from the non-fixed fields only, and (d) rejects with a decode error
any payload supplying a fixed field with a value different from the
literal. -/
theorem c3_fixed_fields_never_user_settable :
    (∀ (s : RustStruct) (f : RustField),
        f ∈ s.defFields ↔ f ∈ s.fields ∧ f.fixed = none)
    ∧ (∀ (flds : List (FieldDesc × Json)) (f : FieldDesc) (v : Json)
         (lit : Json), (f, v) ∈ flds → f.fixed = some lit →
        (f.name, lit) ∈ emittedTaggedSerialize flds)
    ∧ (∀ (fields : List FieldDesc) (kvs : JsonKvs)
         (vals : List (Option Json)),
        taggedParse fields kvs.toList = .ok vals →
        (∀ p ∈ fields.zip vals, ∀ lit v, p.1.fixed = some lit →
          p.2 = some v → v = lit) →
        emittedTaggedDeserialize fields (.obj kvs)
          = .ok (taggedSelfAssign (fields.zip vals)))
    ∧ (∀ (fields : List FieldDesc) (kvs : JsonKvs)
         (vals : List (Option Json)) (f : FieldDesc) (lit v : Json),
        taggedParse fields kvs.toList = .ok vals →
        (f, some v) ∈ fields.zip vals → f.fixed = some lit → v ≠ lit →
        ∃ msg, emittedTaggedDeserialize fields (.obj kvs) = .error msg) := by
  refine ⟨?_, ?_, ?_, ?_⟩
  · intro s f
    rw [RustStruct.defFields, List.mem_filter, Option.isNone_iff_eq_none]
  · intro flds f v lit hm hfix
    have : (f.name, lit) = (fun p : FieldDesc × Json =>
        (p.1.name, p.1.fixed.getD p.2)) (f, v) := by simp [hfix]
    rw [emittedTaggedSerialize, this]
    exact List.mem_map_of_mem _ hm
  · intro fields kvs vals hparse hchk
    have hcf := checkFixed_ok_of (fields.zip vals) hchk
    simp [emittedTaggedDeserialize, hparse, hcf, Bind.bind, Except.bind]
  · intro fields kvs vals f lit v hparse hm hfix hne
    obtain ⟨msg, hmsg⟩ := checkFixed_error_of (fields.zip vals)
      ⟨(f, some v), hm, lit, v, hfix, rfl, hne⟩
    exact ⟨msg,
      by simp [emittedTaggedDeserialize, hparse, hmsg, Bind.bind, Except.bind]⟩

/-- A `type`-discriminator field fixed to the literal `"DECLARE"`. -/
def typeFixedField : FieldDesc :=
  { name := "type", optional := false, fixed := some (.str "DECLARE")
    ok := fun j => match j with | .str _ => true | _ => false }

/-- An ordinary user-settable field. -/
def hashField : FieldDesc :=
  { name := "hash", optional := false, fixed := none, ok := fun _ => true }

/-- The two-field tagged struct used to exercise C3. -/
def c3Fields : List FieldDesc := [typeFixedField, hashField]

/-- The IR struct corresponding to `c3Fields`, with the `type` field
fixed. -/
def c3Struct : RustStruct :=
  { serde_as_array := false
    extra_ref_type := false
    fields := [{ name := "type", type_name := "String"
                 fixed := some { name := "type", value := "\"DECLARE\"" } },
               { name := "hash", type_name := "String" }] }

/-- C3 witness: on the concrete two-field struct, the rendered definition
keeps only `hash`; serialization writes the literal `"DECLARE"` for
`type` regardless of the held value; a payload omitting `type` decodes, a
payload with the wrong `type` is rejected, and a payload with the correct
literal decodes. -/
theorem c3_fixed_fields_never_user_settable_witness :
    (c3Struct.defFields.map fun f => f.name) = ["hash"]
    ∧ emittedTaggedSerialize
        [(typeFixedField, .str "IGNORED"), (hashField, .str "h")]
        = [("type", .str "DECLARE"), ("hash", .str "h")]
    ∧ emittedTaggedDeserialize c3Fields (.obj (.cons "hash" (.str "h") .nil))
        = .ok [("hash", some (.str "h"))]
    ∧ (emittedTaggedDeserialize c3Fields
        (.obj (.cons "type" (.str "INVOKE")
          (.cons "hash" (.str "h") .nil)))).toOption = none
    ∧ emittedTaggedDeserialize c3Fields
        (.obj (.cons "type" (.str "DECLARE")
          (.cons "hash" (.str "h") .nil)))
        = .ok [("hash", some (.str "h"))] := by
  obtain ⟨hdef, hser, hacc, hrej⟩ := c3_fixed_fields_never_user_settable
  refine ⟨?_, ?_, ?_, ?_, ?_⟩
  · have := (hdef c3Struct { name := "hash", type_name := "String" }).mpr
      ⟨by simp [c3Struct], rfl⟩
    rfl
  · have := hser [(typeFixedField, .str "IGNORED"), (hashField, .str "h")]
      typeFixedField (.str "IGNORED") (.str "DECLARE")
      (List.mem_cons_self _ _) rfl
    rfl
  · have h := hacc c3Fields (.cons "hash" (.str "h") .nil)
      [none, some (.str "h")] (by rfl) ?_
    · exact h.trans (by rfl)
    · intro p hp lit v hfix hval
      rcases List.mem_cons.mp hp with he | hp2
      · rw [he] at hval
        cases hval
      · rcases List.mem_cons.mp hp2 with he2 | hp3
        · rw [he2] at hfix
          cases hfix
        · cases hp3
  · obtain ⟨msg, hmsg⟩ := hrej c3Fields
      (.cons "type" (.str "INVOKE") (.cons "hash" (.str "h") .nil))
      [some (.str "INVOKE"), some (.str "h")] typeFixedField
      (.str "DECLARE") (.str "INVOKE") (by rfl)
      (List.mem_cons_self _ _) rfl (by decide)
    rw [hmsg]
    rfl
  · have h := hacc c3Fields
      (.cons "type" (.str "DECLARE") (.cons "hash" (.str "h") .nil))
      [some (.str "DECLARE"), some (.str "h")] (by rfl) ?_
    · exact h.trans (by rfl)
    · intro p hp lit v hfix hval
      rcases List.mem_cons.mp hp with he | hp2
      · rw [he] at hfix hval
        simp only at hfix hval
        have hlit : lit = .str "DECLARE" := by
          have : typeFixedField.fixed = some lit := hfix
          simpa [typeFixedField] using this.symm
        have hv : v = .str "DECLARE" := by
          cases hval
          rfl
        rw [hv, hlit]
      · rcases List.mem_cons.mp hp2 with he2 | hp3
        · rw [he2] at hfix
          cases hfix
        · cases hp3

/-! ### The flatten-only analysis computes the specified sets -/

mutual

theorem visit_schema_eq : ∀ (s : Schema) (po : FlattenOption)
    (st : Finset String × Finset String),
    visit_schema_for_flatten_only s po st
      = (st.1 ∪ (refContexts po s).1, st.2 ∪ (refContexts po s).2)
  | .ref _ _, po, st => by
      simp [visit_schema_for_flatten_only, refContexts]
  | .oneOf _ vs, po, st => by
      simpa [visit_schema_for_flatten_only, refContexts]
        using visitOneOf_eq vs po st
  | .allOf _ fs, po, st => by
      simpa [visit_schema_for_flatten_only, refContexts]
        using visitAllOf_eq fs po st
  | .objectPrim _ props _, po, st => by
      simpa [visit_schema_for_flatten_only, refContexts]
        using visitProps_eq props po st
  | .arrayPrim _ (.ref _ name), po, st => by
      simp [visit_schema_for_flatten_only, refContexts, Finset.insert_eq,
        Finset.union_comm]
  | .arrayPrim _ (.oneOf m vs), po, st => by
      simpa [visit_schema_for_flatten_only, refContexts]
        using visit_schema_eq (.oneOf m vs) po st
  | .arrayPrim _ (.allOf m fs), po, st => by
      simpa [visit_schema_for_flatten_only, refContexts]
        using visit_schema_eq (.allOf m fs) po st
  | .arrayPrim _ (.objectPrim m props r), po, st => by
      simpa [visit_schema_for_flatten_only, refContexts]
        using visit_schema_eq (.objectPrim m props r) po st
  | .arrayPrim _ (.arrayPrim m items), po, st => by
      simpa [visit_schema_for_flatten_only, refContexts]
        using visit_schema_eq (.arrayPrim m items) po st
  | .arrayPrim _ (.stringPrim m e), po, st => by
      simp [visit_schema_for_flatten_only, refContexts]
  | .arrayPrim _ (.integerPrim m), po, st => by
      simp [visit_schema_for_flatten_only, refContexts]
  | .arrayPrim _ (.booleanPrim m), po, st => by
      simp [visit_schema_for_flatten_only, refContexts]
  | .stringPrim _ _, po, st => by
      simp [visit_schema_for_flatten_only, refContexts]
  | .integerPrim _, po, st => by
      simp [visit_schema_for_flatten_only, refContexts]
  | .booleanPrim _, po, st => by
      simp [visit_schema_for_flatten_only, refContexts]

theorem visitOneOf_eq : ∀ (vs : SchemaList) (po : FlattenOption)
    (st : Finset String × Finset String),
    visitOneOfVariants vs po st
      = (st.1 ∪ (refContextsOneOf po vs).1, st.2 ∪ (refContextsOneOf po vs).2)
  | .nil, po, st => by
      simp [visitOneOfVariants, refContextsOneOf]
  | .cons (.ref m name) rest, po, st => by
      rw [show visitOneOfVariants (.cons (.ref m name) rest) po st
          = visitOneOfVariants rest po (st.1, insert name st.2) from rfl]
      rw [visitOneOf_eq rest po (st.1, insert name st.2)]
      simp [refContextsOneOf, Finset.insert_eq, Finset.union_assoc,
        Finset.union_left_comm]
  | .cons (.oneOf m vs') rest, po, st => by
      rw [show visitOneOfVariants (.cons (.oneOf m vs') rest) po st
          = visitOneOfVariants rest po
              (visit_schema_for_flatten_only (.oneOf m vs') po st) from rfl]
      rw [visit_schema_eq (.oneOf m vs') po st,
        visitOneOf_eq rest po _]
      simp [refContextsOneOf, Finset.union_assoc]
  | .cons (.allOf m fs') rest, po, st => by
      rw [show visitOneOfVariants (.cons (.allOf m fs') rest) po st
          = visitOneOfVariants rest po
              (visit_schema_for_flatten_only (.allOf m fs') po st) from rfl]
      rw [visit_schema_eq (.allOf m fs') po st, visitOneOf_eq rest po _]
      simp [refContextsOneOf, Finset.union_assoc]
  | .cons (.objectPrim m props r) rest, po, st => by
      rw [show visitOneOfVariants (.cons (.objectPrim m props r) rest) po st
          = visitOneOfVariants rest po
              (visit_schema_for_flatten_only (.objectPrim m props r) po st)
          from rfl]
      rw [visit_schema_eq (.objectPrim m props r) po st,
        visitOneOf_eq rest po _]
      simp [refContextsOneOf, Finset.union_assoc]
  | .cons (.arrayPrim m items) rest, po, st => by
      rw [show visitOneOfVariants (.cons (.arrayPrim m items) rest) po st
          = visitOneOfVariants rest po
              (visit_schema_for_flatten_only (.arrayPrim m items) po st)
          from rfl]
      rw [visit_schema_eq (.arrayPrim m items) po st, visitOneOf_eq rest po _]
      simp [refContextsOneOf, Finset.union_assoc]
  | .cons (.stringPrim m e) rest, po, st => by
      rw [show visitOneOfVariants (.cons (.stringPrim m e) rest) po st
          = visitOneOfVariants rest po
              (visit_schema_for_flatten_only (.stringPrim m e) po st)
          from rfl]
      rw [visit_schema_eq (.stringPrim m e) po st, visitOneOf_eq rest po _]
      simp [refContextsOneOf, Finset.union_assoc]
  | .cons (.integerPrim m) rest, po, st => by
      rw [show visitOneOfVariants (.cons (.integerPrim m) rest) po st
          = visitOneOfVariants rest po
              (visit_schema_for_flatten_only (.integerPrim m) po st)
          from rfl]
      rw [visit_schema_eq (.integerPrim m) po st, visitOneOf_eq rest po _]
      simp [refContextsOneOf, Finset.union_assoc]
  | .cons (.booleanPrim m) rest, po, st => by
      rw [show visitOneOfVariants (.cons (.booleanPrim m) rest) po st
          = visitOneOfVariants rest po
              (visit_schema_for_flatten_only (.booleanPrim m) po st)
          from rfl]
      rw [visit_schema_eq (.booleanPrim m) po st, visitOneOf_eq rest po _]
      simp [refContextsOneOf, Finset.union_assoc]

theorem visitAllOf_eq : ∀ (fs : SchemaList) (po : FlattenOption)
    (st : Finset String × Finset String),
    visitAllOfFragments fs po st
      = (st.1 ∪ (refContextsAllOf po fs).1, st.2 ∪ (refContextsAllOf po fs).2)
  | .nil, po, st => by
      simp [visitAllOfFragments, refContextsAllOf]
  | .cons (.ref m name) rest, po, st => by
      rw [show visitAllOfFragments (.cons (.ref m name) rest) po st
          = visitAllOfFragments rest po
              (if shouldFlatten po name then (insert name st.1, st.2)
               else visit_schema_for_flatten_only (.ref m name) po
                 (st.1, insert name st.2)) from rfl]
      by_cases hsf : shouldFlatten po name
      · rw [if_pos hsf, visitAllOf_eq rest po _]
        simp [refContextsAllOf, hsf, Finset.insert_eq, Finset.union_assoc,
          Finset.union_left_comm]
      · rw [if_neg hsf,
          show visit_schema_for_flatten_only (.ref m name) po
              (st.1, insert name st.2) = (st.1, insert name st.2) from rfl,
          visitAllOf_eq rest po _]
        simp [refContextsAllOf, hsf, Finset.insert_eq, Finset.union_assoc,
          Finset.union_left_comm]
  | .cons (.oneOf m vs') rest, po, st => by
      rw [show visitAllOfFragments (.cons (.oneOf m vs') rest) po st
          = visitAllOfFragments rest po
              (visit_schema_for_flatten_only (.oneOf m vs') po st) from rfl]
      rw [visit_schema_eq (.oneOf m vs') po st, visitAllOf_eq rest po _]
      simp [refContextsAllOf, Finset.union_assoc]
  | .cons (.allOf m fs') rest, po, st => by
      rw [show visitAllOfFragments (.cons (.allOf m fs') rest) po st
          = visitAllOfFragments rest po
              (visit_schema_for_flatten_only (.allOf m fs') po st) from rfl]
      rw [visit_schema_eq (.allOf m fs') po st, visitAllOf_eq rest po _]
      simp [refContextsAllOf, Finset.union_assoc]
  | .cons (.objectPrim m props r) rest, po, st => by
      rw [show visitAllOfFragments (.cons (.objectPrim m props r) rest) po st
          = visitAllOfFragments rest po
              (visit_schema_for_flatten_only (.objectPrim m props r) po st)
          from rfl]
      rw [visit_schema_eq (.objectPrim m props r) po st,
        visitAllOf_eq rest po _]
      simp [refContextsAllOf, Finset.union_assoc]
  | .cons (.arrayPrim m items) rest, po, st => by
      rw [show visitAllOfFragments (.cons (.arrayPrim m items) rest) po st
          = visitAllOfFragments rest po
              (visit_schema_for_flatten_only (.arrayPrim m items) po st)
          from rfl]
      rw [visit_schema_eq (.arrayPrim m items) po st, visitAllOf_eq rest po _]
      simp [refContextsAllOf, Finset.union_assoc]
  | .cons (.stringPrim m e) rest, po, st => by
      rw [show visitAllOfFragments (.cons (.stringPrim m e) rest) po st
          = visitAllOfFragments rest po
              (visit_schema_for_flatten_only (.stringPrim m e) po st)
          from rfl]
      rw [visit_schema_eq (.stringPrim m e) po st, visitAllOf_eq rest po _]
      simp [refContextsAllOf, Finset.union_assoc]
  | .cons (.integerPrim m) rest, po, st => by
      rw [show visitAllOfFragments (.cons (.integerPrim m) rest) po st
          = visitAllOfFragments rest po
              (visit_schema_for_flatten_only (.integerPrim m) po st)
          from rfl]
      rw [visit_schema_eq (.integerPrim m) po st, visitAllOf_eq rest po _]
      simp [refContextsAllOf, Finset.union_assoc]
  | .cons (.booleanPrim m) rest, po, st => by
      rw [show visitAllOfFragments (.cons (.booleanPrim m) rest) po st
          = visitAllOfFragments rest po
              (visit_schema_for_flatten_only (.booleanPrim m) po st)
          from rfl]
      rw [visit_schema_eq (.booleanPrim m) po st, visitAllOf_eq rest po _]
      simp [refContextsAllOf, Finset.union_assoc]

theorem visitProps_eq : ∀ (props : PropList) (po : FlattenOption)
    (st : Finset String × Finset String),
    visitObjectProps props po st
      = (st.1 ∪ (refContextsProps po props).1,
         st.2 ∪ (refContextsProps po props).2)
  | .nil, po, st => by
      simp [visitObjectProps, refContextsProps]
  | .cons pn (.ref m name) rest, po, st => by
      rw [show visitObjectProps (.cons pn (.ref m name) rest) po st
          = visitObjectProps rest po (st.1, insert name st.2) from rfl]
      rw [visitProps_eq rest po (st.1, insert name st.2)]
      simp [refContextsProps, Finset.insert_eq, Finset.union_assoc,
        Finset.union_left_comm]
  | .cons pn (.oneOf m vs') rest, po, st => by
      rw [show visitObjectProps (.cons pn (.oneOf m vs') rest) po st
          = visitObjectProps rest po
              (visit_schema_for_flatten_only (.oneOf m vs') po st) from rfl]
      rw [visit_schema_eq (.oneOf m vs') po st, visitProps_eq rest po _]
      simp [refContextsProps, Finset.union_assoc]
  | .cons pn (.allOf m fs') rest, po, st => by
      rw [show visitObjectProps (.cons pn (.allOf m fs') rest) po st
          = visitObjectProps rest po
              (visit_schema_for_flatten_only (.allOf m fs') po st) from rfl]
      rw [visit_schema_eq (.allOf m fs') po st, visitProps_eq rest po _]
      simp [refContextsProps, Finset.union_assoc]
  | .cons pn (.objectPrim m props' r) rest, po, st => by
      rw [show visitObjectProps (.cons pn (.objectPrim m props' r) rest) po st
          = visitObjectProps rest po
              (visit_schema_for_flatten_only (.objectPrim m props' r) po st)
          from rfl]
      rw [visit_schema_eq (.objectPrim m props' r) po st,
        visitProps_eq rest po _]
      simp [refContextsProps, Finset.union_assoc]
  | .cons pn (.arrayPrim m items) rest, po, st => by
      rw [show visitObjectProps (.cons pn (.arrayPrim m items) rest) po st
          = visitObjectProps rest po
              (visit_schema_for_flatten_only (.arrayPrim m items) po st)
          from rfl]
      rw [visit_schema_eq (.arrayPrim m items) po st, visitProps_eq rest po _]
      simp [refContextsProps, Finset.union_assoc]
  | .cons pn (.stringPrim m e) rest, po, st => by
      rw [show visitObjectProps (.cons pn (.stringPrim m e) rest) po st
          = visitObjectProps rest po
              (visit_schema_for_flatten_only (.stringPrim m e) po st)
          from rfl]
      rw [visit_schema_eq (.stringPrim m e) po st, visitProps_eq rest po _]
      simp [refContextsProps, Finset.union_assoc]
  | .cons pn (.integerPrim m) rest, po, st => by
      rw [show visitObjectProps (.cons pn (.integerPrim m) rest) po st
          = visitObjectProps rest po
              (visit_schema_for_flatten_only (.integerPrim m) po st)
          from rfl]
      rw [visit_schema_eq (.integerPrim m) po st, visitProps_eq rest po _]
      simp [refContextsProps, Finset.union_assoc]
  | .cons pn (.booleanPrim m) rest, po, st => by
      rw [show visitObjectProps (.cons pn (.booleanPrim m) rest) po st
          = visitObjectProps rest po
              (visit_schema_for_flatten_only (.booleanPrim m) po st)
          from rfl]
      rw [visit_schema_eq (.booleanPrim m) po st, visitProps_eq rest po _]
      simp [refContextsProps, Finset.union_assoc]

end

theorem fold_visit_pair (po : FlattenOption) :
    ∀ (l : List (String × Schema)) (st : Finset String × Finset String),
      l.foldl (fun st kv => visit_schema_for_flatten_only kv.2 po st) st
        = (l.foldl (fun acc kv => acc ∪ (refContexts po kv.2).1) st.1,
           l.foldl (fun acc kv => acc ∪ (refContexts po kv.2).2) st.2) := by
  intro l
  induction l with
  | nil => intro st; simp
  | cons kv rest ih =>
      intro st
      rw [List.foldl_cons, visit_schema_eq kv.2 po st, ih,
        List.foldl_cons, List.foldl_cons]

/-- A document where `FRAG` is referenced only as a policy-selected
`AllOf` fragment. -/
def flattenOnlyDocA : Specification :=
  { components :=
      { schemas := [("PARENT", .allOf {} (.cons (.ref {} "FRAG") .nil)),
                    ("FRAG", .objectPrim {} .nil none)]
        errors := [] }
    methods := [] }

/-- The same document with `FRAG` additionally referenced from an
`Object` property. -/
def flattenOnlyDocB : Specification :=
  { components :=
      { schemas := [("PARENT", .allOf {} (.cons (.ref {} "FRAG") .nil)),
                    ("FRAG", .objectPrim {} .nil none),
                    ("OTHER", .objectPrim {}
                      (.cons "x" (.ref {} "FRAG") .nil) none)]
        errors := [] }
    methods := [] }

/-- C1: the flatten-only analysis returns exactly the set described by
the specification — the names occurring as policy-selected `AllOf`
fragment references, minus every name referenced in any other context
(`Object` property, `Array` items, `OneOf` variant or non-selected
`AllOf` fragment), minus the fixed exclusion list; in particular, a
schema referenced only inside selected `AllOf` fragments is in the set,
and the same schema additionally referenced once from an `Object`
property elsewhere is not. -/
theorem c1_flatten_only_set_characterization :
    (∀ (specs : Specification) (po : FlattenOption) (name : String),
        name ∈ get_flatten_only_schemas specs po
          ↔ (name ∈ docFlattenSet specs po
              ∧ name ∉ docNonFlattenSet specs po
              ∧ name ∉ HARD_CODED_NON_FLATTEN_SCHEMAS))
    ∧ "FRAG" ∈ get_flatten_only_schemas flattenOnlyDocA (.selected ["FRAG"])
    ∧ "FRAG" ∉ get_flatten_only_schemas flattenOnlyDocB (.selected ["FRAG"]) := by
  refine ⟨?_, by decide, by decide⟩
  intro specs po name
  rw [get_flatten_only_schemas]
  rw [fold_visit_pair po specs.components.schemas (∅, ∅)]
  rw [Finset.mem_filter]
  rw [docFlattenSet, docNonFlattenSet]
  constructor
  · rintro ⟨h1, h2⟩
    push_neg at h2
    exact ⟨h1, h2.1, h2.2⟩
  · rintro ⟨h1, h2, h3⟩
    refine ⟨h1, ?_⟩
    push_neg
    exact ⟨h2, h3⟩
